import Mathlib

/-!
Verification of the MCTAL subsystem of the Nexa repository:
the `MctalTally` value addressing and `MctalParser` state machine from
`src/nexa/mcnp/output/mctal.py`, and the `MultiDimIterator` strided indexer
from `src/nexa/util/multi_dim_iterator2.py`.

The Python code is shallowly embedded: strings are Lean `String`s with the
relevant Python primitives (`str.split`, `str.strip`, the two regexes used by
the parser, `int`/`float` conversion) modelled over character lists; Python
dicts (which preserve insertion order) are association lists; Python exceptions
become `Except String`; parsed floats are kept symbolically as
mantissa-and-exponent pairs (`PyFloat`), since the claims treat stored values
as opaque payload.
-/

/-! ## Python string primitives -/

/-- Python whitespace, as used by `str.split()` / `str.strip()` with no
arguments. -/
def pyIsSpace (c : Char) : Bool :=
  c = ' ' || c = '\t' || c = '\n' || c = '\r' || c = '\x0b' || c = '\x0c'

/-- `str.split()` on a character list, with the token built so far: split on
runs of whitespace, discarding empty tokens. -/
def pySplitAux : List Char → List Char → List String
  | [], tok => if tok.isEmpty then [] else [String.mk tok]
  | c :: cs, tok =>
    if pyIsSpace c then
      if tok.isEmpty then pySplitAux cs []
      else String.mk tok :: pySplitAux cs []
    else pySplitAux cs (tok ++ [c])

/-- Python `line.split()`. -/
def pySplit (s : String) : List String := pySplitAux s.toList []

/-- Python `line.strip()`. -/
def pyStrip (s : String) : String :=
  String.mk (((s.toList.dropWhile pyIsSpace).reverse.dropWhile pyIsSpace).reverse)

/-- Python `line.startswith(pre)`. -/
def pyStarts (s pre : String) : Bool := pre.toList.isPrefixOf s.toList

/-- Value of a nonempty digit string. -/
def digitsToNat (ds : List Char) : Nat :=
  ds.foldl (fun acc c => acc * 10 + (c.toNat - '0'.toNat)) 0

/-- Python `int(s)` on a `str.split()` token: optional sign followed by one or
more decimal digits; anything else raises `ValueError` (`none`). -/
def pyInt (s : String) : Option Int :=
  match s.toList with
  | [] => none
  | '-' :: ds =>
    if ds ≠ [] ∧ ds.all Char.isDigit then some (-(digitsToNat ds : Int)) else none
  | '+' :: ds =>
    if ds ≠ [] ∧ ds.all Char.isDigit then some ((digitsToNat ds : Int)) else none
  | ds =>
    if ds.all Char.isDigit then some ((digitsToNat ds : Int)) else none

/-- Exponent suffix of a Python float literal: empty, or `e`/`E` followed by an
optionally signed nonempty digit string. -/
def pyFloatExp : List Char → Option Int
  | [] => some 0
  | e :: rest =>
    if e = 'e' ∨ e = 'E' then
      match rest with
      | '-' :: ds => if ds ≠ [] ∧ ds.all Char.isDigit then some (-(digitsToNat ds : Int)) else none
      | '+' :: ds => if ds ≠ [] ∧ ds.all Char.isDigit then some ((digitsToNat ds : Int)) else none
      | ds => if ds ≠ [] ∧ ds.all Char.isDigit then some ((digitsToNat ds : Int)) else none
    else none

/-- A parsed numeric literal, kept symbolically as `mantissa * 10 ^ exp10`.
No claim under verification computes with the parsed values — they are opaque
payload carried from the input to the stored records — so the embedding keeps
them exactly as written rather than as normalized rationals. -/
structure PyFloat where
  mantissa : Int
  exp10 : Int
deriving DecidableEq, Repr

/-- The rational a `PyFloat` denotes (for statements that want a number). -/
def PyFloat.toRat (f : PyFloat) : ℚ := (f.mantissa : ℚ) * (10 : ℚ) ^ f.exp10

/-- Unsigned part of a Python float literal: `digits [. digits]` with at least
one digit on one side of the dot, then an optional exponent. -/
def pyFloatCore (cs : List Char) : Option PyFloat := do
  let intPart := cs.takeWhile Char.isDigit
  let rest := cs.dropWhile Char.isDigit
  match rest with
  | '.' :: rest2 =>
    let fracPart := rest2.takeWhile Char.isDigit
    let rest3 := rest2.dropWhile Char.isDigit
    if intPart = [] ∧ fracPart = [] then none
    else do
      let e ← pyFloatExp rest3
      some { mantissa := (digitsToNat (intPart ++ fracPart) : Int),
             exp10 := e - fracPart.length }
  | rest3 =>
    if intPart = [] then none
    else do
      let e ← pyFloatExp rest3
      some { mantissa := (digitsToNat intPart : Int), exp10 := e }

/-- Python `float(s)` on a token, restricted to finite decimal/exponent
literals (the forms occurring in MCTAL files); `none` models `ValueError`. -/
def pyFloat (s : String) : Option PyFloat :=
  match s.toList with
  | '-' :: cs => (pyFloatCore cs).map (fun f => { f with mantissa := -f.mantissa })
  | '+' :: cs => pyFloatCore cs
  | cs => pyFloatCore cs

/-- Python list subscription `l[i]`, including negative-index wraparound;
`none` models `IndexError`. -/
def pyGetItem (l : List α) (i : Int) : Option α :=
  if i < 0 then
    if 0 ≤ i + l.length then l.get? (i + l.length).toNat else none
  else l.get? i.toNat

/-! ## Ordered dictionaries as association lists

Python dicts preserve insertion order; key update keeps the original
position. -/

/-- `d[k]`, `none` for a missing key (`KeyError`). -/
def dictGet [DecidableEq κ] : List (κ × α) → κ → Option α
  | [], _ => none
  | (k, v) :: rest, key => if k = key then some v else dictGet rest key

/-- `d[k] = v`: replace in place if the key exists, else append. -/
def dictSet [DecidableEq κ] : List (κ × α) → κ → α → List (κ × α)
  | [], key, val => [(key, val)]
  | (k, v) :: rest, key, val =>
    if k = key then (k, val) :: rest else (k, v) :: dictSet rest key val

deriving instance DecidableEq for Except

/-- Turn an `Option` into an `Except`, naming the raised error. -/
def toExcept (o : Option α) (msg : String) : Except String α :=
  match o with
  | some a => .ok a
  | none => .error msg

/-! ## Enumerations from `nexa.mcnp.data.tallybin` and `nexa.mcnp.output.mctal` -/

/-- The eight canonical tally bin kinds (`McnpTallyBinEnum`). -/
inductive McnpTallyBinEnum
  | F | D | U | S | M | C | E | T
deriving DecidableEq, Repr

/-- The `has_mctal_data` flag of each member: which axes carry a payload of
boundary/label values. -/
def McnpTallyBinEnum.has_mctal_data : McnpTallyBinEnum → Bool
  | .F => true
  | .D => false
  | .U => false
  | .S => false
  | .M => false
  | .C => true
  | .E => true
  | .T => true

/-- Python `McnpTallyBinEnum[name]` lookup by member name. -/
def McnpTallyBinEnum.fromName : String → Option McnpTallyBinEnum
  | "F" => some .F
  | "D" => some .D
  | "U" => some .U
  | "S" => some .S
  | "M" => some .M
  | "C" => some .C
  | "E" => some .E
  | "T" => some .T
  | _ => none

/-- `DetectorType` enumeration. -/
inductive DetectorType
  | NONE | POINT | RING | FIP | FIR | FIC
deriving DecidableEq, Repr

/-- `DetectorType.parse`: integer code to member, `ValueError` on unknown. -/
def DetectorType.parse (d : Int) : Option DetectorType :=
  if d = 0 then some .NONE
  else if d = 1 then some .POINT
  else if d = 2 then some .RING
  else if d = 3 then some .FIP
  else if d = 4 then some .FIR
  else if d = 5 then some .FIC
  else none

/-- `TallyModifierType` enumeration. -/
inductive TallyModifierType
  | NONE | ASTERISK | PLUS
deriving DecidableEq, Repr

/-- `TallyModifierType.parse`: integer code to member, `ValueError` on
unknown. -/
def TallyModifierType.parse (m : Int) : Option TallyModifierType :=
  if m = 0 then some .NONE
  else if m = 1 then some .ASTERISK
  else if m = 2 then some .PLUS
  else none

/-- One MCNP particle type record. Only its identity matters to the parsing
core; the descriptive fields live in the external lookup's data table. -/
structure McnpParticleType where
  ipt : Int
deriving DecidableEq, Repr

/-- Modelled from the spec: the external particle-type lookup collaborator
(`McnpParticleTypes`) whose data table (`tblMcnpParticle.yaml`) is outside the
parsing core. The spec requires only "get descriptive record by numeric type
index" and "total number of known particle types". -/
structure McnpParticleTypes where
  num_particles : Nat
  particle_by_ipt : Int → Option McnpParticleType

/-! ## `MctalTally` and `MctalOverview` -/

/-- The per-axis tuple stored in `MctalTally.bin`:
`(McnpTallyBinEnum, bin count, bin qual, bin data)`. -/
abbrev BinTuple := McnpTallyBinEnum × Int × String × List PyFloat

/-- `MctalTally`: one tally of an MCTAL file. -/
structure MctalTally where
  tally_num : Int := 0
  particles : List McnpParticleType := []
  detector_type : DetectorType := .NONE
  modifier_type : TallyModifierType := .NONE
  bin : List (String × BinTuple) := []
  fc_data : List String := []
  vals_data : List (PyFloat × PyFloat) := []
  tfc_data : List (Int × PyFloat × PyFloat × PyFloat) := []
  tfc_bin : List Int := []
deriving DecidableEq, Repr

/-- `MctalTally.total_vals`: product over the stored bins of
`count if count > 0 else 1`. -/
def MctalTally.total_vals (t : MctalTally) : Int :=
  t.bin.foldl (fun total b => total * (if b.2.2.1 > 0 then b.2.2.1 else 1)) 1

/-- The flat-index loop inside `MctalTally.value`: iterate the bins from the
last (T) back to the first (F), accumulating
`flat_index += index * multiplier; multiplier *= bin_count` with
`bin_count = 1 if count == 0 else count`, and raising `IndexError` on an
out-of-range index.  Returns `(flat_index, multiplier)`. -/
def valueLoop : List (String × BinTuple) → List Int → Except String (Int × Int)
  | [], [] => .ok (0, 1)
  | (bin_key, bt) :: rest, index :: idxRest => do
    let fm ← valueLoop rest idxRest
    let bin_count : Int := if bt.2.1 = 0 then 1 else bt.2.1
    if index < 0 ∨ index ≥ bin_count then
      .error ("Index out of range for bin " ++ bin_key)
    else
      .ok (fm.1 + index * fm.2, fm.2 * bin_count)
  | _, _ => .error "Number of indices does not match number of bin types"

/-- `MctalTally.value(indices)`: value/uncertainty pair at a full coordinate. -/
def MctalTally.value (t : MctalTally) (indices : List Int) : Except String (PyFloat × PyFloat) :=
  if t.vals_data = [] then
    .error "No VALS data available for this tally"
  else if indices.length ≠ t.bin.length then
    .error "Number of indices does not match number of bin types"
  else do
    let fm ← valueLoop t.bin indices
    toExcept (pyGetItem t.vals_data fm.1) "IndexError: list index out of range"

/-- `MctalOverview`: the result of a parse.  `tallies` is insertion-ordered,
keyed by tally number; `caseStr` renders the source's `case` field (a Lean
keyword). -/
structure MctalOverview where
  caseStr : String := ""
  code_name : String := ""
  version : String := ""
  probid : String := ""
  knod : Int := 0
  nps : Int := 0
  rnr : Int := 0
  title : String := ""
  tally_nums : List Int := []
  tallies : List (Int × MctalTally) := []
deriving DecidableEq, Repr

/-! ## `MultiDimIterator` from `nexa.util.multi_dim_iterator2` -/

/-- The fixed canonical parameter order `self.params`. -/
def mdiParams : List String := ["F", "D", "U", "S", "M", "C", "E", "T"]

/-- `MultiDimIterator` state: the canonical parameter order, the sizes dict
re-keyed in that order, and the derived strides. -/
structure MultiDimIterator where
  params : List String
  sizes : List (String × Int)
  strides : List (String × Int)
deriving DecidableEq, Repr

/-- `_compute_strides`: `stride = 1; for p in reversed(params): strides[p] =
stride; stride *= sizes[p]`.  `szs` is the materialized sizes dict in
`params` order. -/
def computeStrides (szs : List (String × Int)) : List (String × Int) :=
  (szs.reverse.foldl
    (fun (acc : List (String × Int) × Int) pv =>
      (acc.1 ++ [(pv.1, acc.2)], acc.2 * pv.2))
    ([], 1)).1

/-- `MultiDimIterator.__init__`: `self.sizes = {p: sizes[p] for p in
self.params}` (raising `KeyError` for a missing axis), then
`self.strides = self._compute_strides()`. -/
def MultiDimIterator.make (sizes : List (String × Int)) : Except String MultiDimIterator := do
  let szs ← mdiParams.foldlM
    (fun acc p =>
      match dictGet sizes p with
      | some v => .ok (acc ++ [(p, v)])
      | none => .error ("KeyError: " ++ p))
    ([] : List (String × Int))
  .ok { params := mdiParams, sizes := szs, strides := computeStrides szs }

/-- `_validate_inputs(free_params, fixed_values)` (the `isinstance(str)`
normalization does not arise: the embedding always passes a list).  Checks, in
source order: free parameters form a subset of `params`; no parameter is both
free and fixed; no parameter is missing from both; every fixed value is within
`[0, size)`.  Returns `free_params` unchanged. -/
def MultiDimIterator.validate (it : MultiDimIterator) (free_params : List String)
    (fixed_values : List (String × Int)) : Except String (List String) :=
  if ¬ (free_params.all (fun p => it.params.contains p)) then
    .error "Invalid free parameters"
  else if free_params.any (fun p => (dictGet fixed_values p).isSome) then
    .error "Parameters cannot be both free and fixed"
  else if (it.params.filter
      (fun p => ¬ free_params.contains p ∧ (dictGet fixed_values p).isNone)) ≠ [] then
    .error "Missing fixed values for parameters"
  else
    (fixed_values.foldlM
      (fun (_ : PUnit) (pv : String × Int) => do
        let n ← toExcept (dictGet it.sizes pv.1) ("KeyError: " ++ pv.1)
        if 0 ≤ pv.2 ∧ pv.2 < n then .ok PUnit.unit
        else .error ("Invalid fixed value for " ++ pv.1))
      PUnit.unit).map (fun _ => free_params)

/-- `itertools.product(*[range(n) for n in ns])`, first factor slowest. -/
def productRanges : List Nat → List (List Nat)
  | [] => [[]]
  | n :: ns => (List.range n).flatMap (fun i => (productRanges ns).map (fun t => i :: t))

/-- `sum(i * s for i, s in zip(combo, strides))`. -/
def sumZip (combo : List Nat) (strides : List Int) : Int :=
  (List.zip combo strides).foldl (fun a p => a + (p.1 : Int) * p.2) 0

/-- `iter_indices(free_params, fixed_values)`: validate, compute the base
offset from the fixed values, then yield
`base + sum(i * s for i, s in zip(combo, free_strides))` for every combo of
`itertools.product(*free_ranges)`.  The lazy generator is materialized as the
list of all yielded offsets; a raised exception is an `.error` (in the source
it surfaces at the first `next()`, before any offset is produced). -/
def MultiDimIterator.iter_indices (it : MultiDimIterator) (free_params : List String)
    (fixed_values : List (String × Int)) : Except String (List Int) := do
  let fp ← it.validate free_params fixed_values
  let base ← fixed_values.foldlM
    (fun acc pv => do
      let st ← toExcept (dictGet it.strides pv.1) ("KeyError: " ++ pv.1)
      .ok (acc + pv.2 * st))
    (0 : Int)
  let free_ranges ← fp.mapM (fun p => toExcept (dictGet it.sizes p) ("KeyError: " ++ p))
  let free_strides ← fp.mapM (fun p => toExcept (dictGet it.strides p) ("KeyError: " ++ p))
  .ok ((productRanges (free_ranges.map Int.toNat)).map
    (fun combo => base + sumZip combo free_strides))

/-- The three coordinate formats `iter_coords` can yield. -/
inductive CoordOut
  | dict (l : List (String × Int))
  | tup (l : List Int)
  | free_only (l : List (String × Int))
deriving DecidableEq, Repr

/-- One yielded coordinate of `iter_coords`: the fixed dict updated with the
free axes at the current combo, rendered in the requested format
(`full_coord.get(p, 0)` defaults a missing key to 0). -/
def coordFormat (params fp : List String) (fixed_values : List (String × Int))
    (combo : List Nat) (format : String) : Except String CoordOut :=
  let full_coord := (List.zip fp combo).foldl
    (fun d pv => dictSet d pv.1 (pv.2 : Int)) fixed_values
  if format = "dict" then
    .ok (.dict (params.map (fun p => (p, (dictGet full_coord p).getD 0))))
  else if format = "tuple" then
    .ok (.tup (params.map (fun p => (dictGet full_coord p).getD 0)))
  else if format = "free_only" then
    .ok (.free_only (List.zip fp (combo.map (fun i => (i : Int)))))
  else
    .error "format must be dict, tuple, or free_only"

/-- `iter_coords(free_params, fixed_values, format)`, materialized like
`iter_indices`. -/
def MultiDimIterator.iter_coords (it : MultiDimIterator) (free_params : List String)
    (fixed_values : List (String × Int)) (format : String) : Except String (List CoordOut) := do
  let fp ← it.validate free_params fixed_values
  let free_ranges ← fp.mapM (fun p => toExcept (dictGet it.sizes p) ("KeyError: " ++ p))
  (productRanges (free_ranges.map Int.toNat)).mapM
    (fun combo => coordFormat it.params fp fixed_values combo format)

/-! ## `MctalParser` state machine from `nexa.mcnp.output.mctal` -/

/-- The `LookFor` parsing-state enumeration. -/
inductive LookFor
  | HEAD | HEAD_HEADER | HEAD_TITLE | HEAD_NTAL | HEAD_TALLY
  | TALLY | TALLY_HEAD | TALLY_PARTICLE | TALLY_FC | TALLY_BIN
  | TALLY_BIN_DATA | TALLY_VALS | TALLY_TFC | KCODE | END
deriving DecidableEq, Repr

/-- `re.match(r"([fdusmcet])([tu\s])\s+(\d+)", line)`: an axis letter, a
qualifier character (`t`, `u`, or whitespace), at least one whitespace
character, then a maximal nonempty digit run; the rest of the line is
ignored.  Returns the three captured groups. -/
def binLineMatch (line : String) : Option (Char × Char × Nat) :=
  match line.toList with
  | c1 :: c2 :: rest =>
    if (c1 = 'f' ∨ c1 = 'd' ∨ c1 = 'u' ∨ c1 = 's' ∨
        c1 = 'm' ∨ c1 = 'c' ∨ c1 = 'e' ∨ c1 = 't') ∧
        (c2 = 't' ∨ c2 = 'u' ∨ pyIsSpace c2) then
      let sp := rest.takeWhile pyIsSpace
      let ds := (rest.dropWhile pyIsSpace).takeWhile Char.isDigit
      if sp ≠ [] ∧ ds ≠ [] then some (c1, c2, digitsToNat ds) else none
    else none
  | _ => none

/-- `re.match(r"\s*\d+", line)`: optional leading whitespace followed by at
least one digit. -/
def tfcDigitMatch (line : String) : Bool :=
  match line.toList.dropWhile pyIsSpace with
  | c :: _ => c.isDigit
  | [] => false

/-- The mutable state of `parse_lines`: the control variables `lf`, `lfHead`,
`lfTally` and the function-local variables that persist across loop
iterations.  A `none` field is a not-yet-bound local (reading it raises
`UnboundLocalError`/`AttributeError` in the source). -/
structure ParserState where
  lf : LookFor := .HEAD
  lfHead : LookFor := .HEAD_HEADER
  lfTally : Option LookFor := none
  ntal : Option Int := none
  npert : Option Int := none
  overview : Option MctalOverview := none
  current_tally : Option MctalTally := none
  bin_key : Option String := none
  bin_type : Option McnpTallyBinEnum := none
  bin_qual : Option String := none
  bin_count : Option Int := none
  bin_data : Option (List PyFloat) := none
  expected : Option Int := none
  ntfc : Option Int := none
  itfc : Option Int := none
deriving DecidableEq, Repr

/-- HEAD/HEAD_HEADER: a line with exactly seven tokens builds the overview;
anything else raises `Invalid MCTAL header`. -/
def headHeaderStep (line : String) (s : ParserState) : Except String ParserState :=
  match pySplit line with
  | [p0, p1, p2, p3, p4, p5, p6] => do
    let knod ← toExcept (pyInt p4) "ValueError: invalid literal for int"
    let nps ← toExcept (pyInt p5) "ValueError: invalid literal for int"
    let rnr ← toExcept (pyInt p6) "ValueError: invalid literal for int"
    .ok { s with
      overview := some { code_name := p0, version := p1, probid := p2 ++ " " ++ p3,
                         knod := knod, nps := nps, rnr := rnr },
      lfHead := .HEAD_TITLE }
  | _ => .error "Invalid MCTAL header"

/-- HEAD/HEAD_TITLE: the stripped line becomes the title. -/
def headTitleStep (line : String) (s : ParserState) : Except String ParserState :=
  match s.overview with
  | some ov => .ok { s with overview := some { ov with title := pyStrip line },
                            lfHead := .HEAD_NTAL }
  | none => .error "AttributeError: _overview"

/-- HEAD/HEAD_NTAL: `ntal <n>` or `ntal <n> npert <m>`. -/
def headNtalStep (line : String) (s : ParserState) : Except String ParserState :=
  match pySplit line with
  | [_, p1] => do
    let n ← toExcept (pyInt p1) "ValueError: invalid literal for int"
    .ok { s with ntal := some n, npert := some 0, lfHead := .HEAD_TALLY }
  | [_, p1, _, p3] => do
    let n ← toExcept (pyInt p1) "ValueError: invalid literal for int"
    let m ← toExcept (pyInt p3) "ValueError: invalid literal for int"
    .ok { s with ntal := some n, npert := some m, lfHead := .HEAD_TALLY }
  | _ => .error "Invalid MCTAL NTAL line"

/-- The `while len(tally_nums) < ntal` loop of HEAD/HEAD_TALLY.  The source's
`continue` targets the `while`, not the `for`, so every iteration re-splits
the *same* line and appends its tokens again; with an empty token list and
`ntal > 0` the source loops forever.  Each iteration with a nonempty token
list grows the accumulator, so fuel `ntal + 1` is exhausted exactly on the
divergent inputs (`none`). -/
def headTallyWhile (parts : List Int) (ntal : Int) : Nat → List Int → Option (List Int)
  | fuel, acc =>
    if (acc.length : Int) < ntal then
      match fuel with
      | 0 => none
      | fuel' + 1 => headTallyWhile parts ntal fuel' (acc ++ parts)
    else some acc

/-- HEAD/HEAD_TALLY: accumulate tally numbers (see `headTallyWhile`), require
exactly `ntal` of them, then move to TALLY/TALLY_HEAD. -/
def headTallyStep (line : String) (s : ParserState) : Except String ParserState := do
  let ntal ← toExcept s.ntal "UnboundLocalError: ntal"
  let ov ← toExcept s.overview "AttributeError: _overview"
  let parts ← (pySplit (pyStrip line)).mapM
    (fun p => toExcept (pyInt p) "ValueError: invalid literal for int")
  match headTallyWhile parts ntal (ntal.toNat + 1) [] with
  | none => .error "nontermination: HEAD_TALLY while-loop never advances the line"
  | some tally_nums =>
    if (tally_nums.length : Int) = ntal then
      .ok { s with overview := some { ov with tally_nums := tally_nums },
                   lf := .TALLY, lfTally := some .TALLY_HEAD }
    else .error "Invalid MCTAL tally numbers"

/-- The `for i in range(3)` bit-decoding loop of TALLY/TALLY_HEAD: bit `i` set
selects the particle with `ipt = i + 1` (a failed lookup raises `KeyError`). -/
def particleBitsLoop (table : McnpParticleTypes) :
    List Nat → Int → List McnpParticleType → Except String (List McnpParticleType)
  | [], _, acc => .ok acc
  | i :: rest, num, acc =>
    if num % 2 = 1 then
      match table.particle_by_ipt ((i : Int) + 1) with
      | some p => particleBitsLoop table rest (num.fdiv 2) (acc ++ [p])
      | none => .error "KeyError: Particle IPT not found"
    else particleBitsLoop table rest (num.fdiv 2) acc

/-- TALLY/TALLY_HEAD: `tally <num> <particle> <dettype> <modtype>` starts a new
tally; a positive particle bitmask is decoded inline (to TALLY_FC), zero or
negative defers to the particle line (TALLY_PARTICLE).  A line whose first
token is not `tally` or that does not have five tokens is consumed without
effect (TMESH tallies are NYI in the source); an empty line raises
`IndexError` on `parts[0]`. -/
def tallyHeadStep (table : McnpParticleTypes) (line : String) (s : ParserState) :
    Except String ParserState :=
  match pySplit line with
  | [] => .error "IndexError: list index out of range"
  | p0 :: restParts =>
    if p0 = "tally" ∧ restParts.length = 4 then do
      let p1 := restParts.get! 0
      let p2 := restParts.get! 1
      let p3 := restParts.get! 2
      let p4 := restParts.get! 3
      let tally_num ← toExcept (pyInt p1) "ValueError: invalid literal for int"
      let tally_particle ← toExcept (pyInt p2) "ValueError: invalid literal for int"
      let d ← toExcept (pyInt p3) "ValueError: invalid literal for int"
      let m ← toExcept (pyInt p4) "ValueError: invalid literal for int"
      let tally_det_type ← toExcept (DetectorType.parse d) "Unknown detector type"
      let tally_modifier ← toExcept (TallyModifierType.parse m) "Unknown tally modifier type"
      let newTally : MctalTally :=
        { tally_num := tally_num, detector_type := tally_det_type,
          modifier_type := tally_modifier }
      if tally_particle > 0 then do
        let particles ← particleBitsLoop table (List.range 3) tally_particle []
        .ok { s with current_tally := some { newTally with particles := particles },
                     lfTally := some .TALLY_FC }
      else
        .ok { s with current_tally := some newTally,
                     lfTally := some .TALLY_PARTICLE }
    else .ok s

/-- The per-token loop of TALLY/TALLY_PARTICLE: each positive token selects
that particle type via the lookup; failures are re-raised as
`RuntimeError`s. -/
def particleLineLoop (table : McnpParticleTypes) :
    List String → List McnpParticleType → Except String (List McnpParticleType)
  | [], acc => .ok acc
  | part :: rest, acc =>
    match pyInt part with
    | none => .error ("Non-integer particle IPT in MCTAL tally: " ++ part)
    | some ipt =>
      if ipt > 0 then
        match table.particle_by_ipt ipt with
        | some p => particleLineLoop table rest (acc ++ [p])
        | none => .error ("Invalid particle IPT in MCTAL tally: " ++ part)
      else particleLineLoop table rest acc

/-- TALLY/TALLY_PARTICLE: a line with exactly `num_particles` tokens. -/
def tallyParticleStep (table : McnpParticleTypes) (line : String) (s : ParserState) :
    Except String ParserState := do
  let ct ← toExcept s.current_tally "AttributeError: _current_tally"
  let parts := pySplit (pyStrip line)
  if parts.length = table.num_particles then do
    let particles ← particleLineLoop table parts []
    .ok { s with current_tally := some { ct with particles := particles },
                 lfTally := some .TALLY_FC }
  else .error "Invalid MCTAL tally particle line"

/-- TALLY/TALLY_BIN: an axis declaration line (see `binLineMatch`).  The
decision table of the source: nonzero count on a payload-bearing kind reads
payload next (TALLY_BIN_DATA); otherwise the axis is stored as-is, kind T
moving on to TALLY_VALS with `expected = total_vals()` and every other kind
staying in TALLY_BIN.  On a regex mismatch the source interpolates the *stale*
`bin_key` into the error message (`UnboundLocalError` on the first axis of the
first tally). -/
def tallyBinStep (line : String) (s : ParserState) : Except String ParserState := do
  let ct ← toExcept s.current_tally "AttributeError: _current_tally"
  match binLineMatch line with
  | none =>
    match s.bin_key with
    | none => .error "UnboundLocalError: bin_key"
    | some k => .error ("Invalid MCTAL " ++ k ++ " line")
  | some (c1, c2, n) => do
    let bin_key := String.mk [c1.toUpper]
    let bin_type ← toExcept (McnpTallyBinEnum.fromName bin_key) "KeyError"
    let bin_qual : String := if pyIsSpace c2 then "" else String.mk [c2]
    let bin_count : Int := (n : Int)
    let s := { s with bin_key := some bin_key, bin_type := some bin_type,
                      bin_qual := some bin_qual, bin_count := some bin_count,
                      bin_data := some [] }
    if bin_count ≠ 0 ∧ bin_type.has_mctal_data then
      .ok { s with expected := some (if bin_qual = "t" then bin_count - 1 else bin_count),
                   lfTally := some .TALLY_BIN_DATA }
    else if bin_type = .T then
      let ct2 := { ct with bin := dictSet ct.bin bin_key (bin_type, bin_count, bin_qual, []) }
      .ok { s with current_tally := some ct2,
                   expected := some ct2.total_vals,
                   lfTally := some .TALLY_VALS }
    else
      let ct2 := { ct with bin := dictSet ct.bin bin_key (bin_type, bin_count, bin_qual, []) }
      .ok { s with current_tally := some ct2 }

/-- One payload token: `float(part)` if it contains a dot or an `e`/`E`, else
`int(part)`. -/
def parseBinDatum (part : String) : Option PyFloat :=
  if part.toList.contains '.' ∨ (part.toList.map Char.toLower).contains 'e' then
    pyFloat part
  else (pyInt part).map (fun i => ({ mantissa := i, exp10 := 0 } : PyFloat))

/-- TALLY/TALLY_BIN_DATA: if fewer than `expected` payload values have been
read, append every token of the line; on reaching `expected` exactly, store
the axis (kind T then moves to TALLY_VALS with `expected = total_vals()`,
others back to TALLY_BIN); on exceeding it raise. -/
def tallyBinDataStep (line : String) (s : ParserState) : Except String ParserState := do
  let ct ← toExcept s.current_tally "AttributeError: _current_tally"
  let bin_data ← toExcept s.bin_data "UnboundLocalError: bin_tuple"
  let expected ← toExcept s.expected "UnboundLocalError: expected"
  let bin_key ← toExcept s.bin_key "UnboundLocalError: bin_key"
  let bin_type ← toExcept s.bin_type "UnboundLocalError: bin_type"
  let bin_qual ← toExcept s.bin_qual "UnboundLocalError: bin_qual"
  let bin_count ← toExcept s.bin_count "UnboundLocalError: bin_count"
  let new_data ←
    if (bin_data.length : Int) < expected then do
      let vs ← (pySplit (pyStrip line)).mapM
        (fun p => toExcept (parseBinDatum p) "ValueError: invalid literal")
      .ok (bin_data ++ vs)
    else .ok bin_data
  let s := { s with bin_data := some new_data }
  if (new_data.length : Int) = expected then
    let ct2 := { ct with
      bin := dictSet ct.bin bin_key (bin_type, bin_count, bin_qual, new_data) }
    if bin_type = .T then
      .ok { s with current_tally := some ct2, expected := some ct2.total_vals,
                   lfTally := some .TALLY_VALS }
    else
      .ok { s with current_tally := some ct2, lfTally := some .TALLY_BIN }
  else if (new_data.length : Int) > expected then
    .error "Too many bin data values in MCTAL tally"
  else .ok s

/-- The pairing loop of TALLY_VALS: tokens taken two at a time as
`(float(parts[i]), float(parts[i+1]) if i+1 < len(parts) else 0.0)` (the odd
tail case is unreachable after the even-length check but kept faithfully). -/
def valsPairs : List String → Option (List (PyFloat × PyFloat))
  | [] => some []
  | [v] => (pyFloat v).map (fun q => [(q, ({ mantissa := 0, exp10 := 0 } : PyFloat))])
  | v :: e :: rest => do
    let q ← pyFloat v
    let r ← pyFloat e
    let tl ← valsPairs rest
    some ((q, r) :: tl)

/-- TALLY/TALLY_VALS: skip a leading literal `vals` line while no values have
been read; otherwise append the line's (value, uncertainty) pairs, moving to
TALLY_TFC on reaching `expected` exactly and raising on overrun or on a line
with an odd token count. -/
def tallyValsStep (line : String) (s : ParserState) : Except String ParserState := do
  let ct ← toExcept s.current_tally "AttributeError: _current_tally"
  let expected ← toExcept s.expected "UnboundLocalError: expected"
  if ct.vals_data.length = 0 ∧ pyStarts line "vals" then
    .ok s
  else do
    let ct2 ←
      if (ct.vals_data.length : Int) < expected then do
        let parts := pySplit (pyStrip line)
        if parts.length % 2 ≠ 0 then
          .error "Invalid VALS data line in MCTAL tally"
        else do
          let pairs ← toExcept (valsPairs parts) "ValueError: could not convert string to float"
          .ok { ct with vals_data := ct.vals_data ++ pairs }
      else .ok ct
    if (ct2.vals_data.length : Int) = expected then
      .ok { s with current_tally := some ct2, lfTally := some .TALLY_TFC }
    else if (ct2.vals_data.length : Int) > expected then
      .error "Too many VALS data values in MCTAL tally"
    else .ok { s with current_tally := some ct2 }

/-- TALLY/TALLY_TFC: a line starting with `tfc` must be
`tfc <rowCount> <8 ints>` (stored zero-based); a line matching `\s*\d+` is a
4-column data row counted against `rowCount`, completion inserting the tally
into the overview and returning to TALLY_HEAD; anything else raises. -/
def tallyTfcStep (line : String) (s : ParserState) : Except String ParserState := do
  let ct ← toExcept s.current_tally "AttributeError: _current_tally"
  if pyStarts line "tfc" then
    let parts := pySplit (pyStrip line)
    if parts.length = 10 ∧ parts.get! 0 = "tfc" then do
      let n ← toExcept (pyInt (parts.get! 1)) "ValueError: invalid literal for int"
      let coords ← (parts.drop 2).mapM
        (fun p => toExcept (pyInt p) "ValueError: invalid literal for int")
      .ok { s with ntfc := some n, itfc := some 0,
                   current_tally := some { ct with tfc_bin := coords.map (fun v => v - 1) } }
    else .error "Invalid TFC header line in MCTAL tally"
  else if tfcDigitMatch line then do
    let ntfc ← toExcept s.ntfc "UnboundLocalError: ntfc"
    let itfc ← toExcept s.itfc "UnboundLocalError: itfc"
    let (ct2, itfc2) ←
      if itfc < ntfc then
        match pySplit (pyStrip line) with
        | [q0, q1, q2, q3] => do
          let nps ← toExcept (pyInt q0) "ValueError: invalid literal for int"
          let mean ← toExcept (pyFloat q1) "ValueError: could not convert string to float"
          let err ← toExcept (pyFloat q2) "ValueError: could not convert string to float"
          let fom ← toExcept (pyFloat q3) "ValueError: could not convert string to float"
          .ok ({ ct with tfc_data := ct.tfc_data ++ [(nps, mean, err, fom)] }, itfc + 1)
        | _ => .error "Invalid TFC data line in MCTAL tally"
      else .ok (ct, itfc)
    if itfc2 = ntfc then do
      let ov ← toExcept s.overview "AttributeError: _overview"
      .ok { s with
        overview := some { ov with tallies := dictSet ov.tallies ct2.tally_num ct2 },
        current_tally := none, itfc := some itfc2,
        lf := .TALLY, lfTally := some .TALLY_HEAD }
    else
      .ok { s with current_tally := some ct2, itfc := some itfc2 }
  else .error "Invalid TFC data line in MCTAL tally"

/-- TALLY dispatch on `lfTally`.  TALLY_FC collects indented comment lines and,
on the first non-indented line, falls through to TALLY_BIN *re-processing the
same line* (the source has no `continue` there).  An unmatched `lfTally`
(including the dead KCODE branch) consumes the line without effect. -/
def tallyStep (table : McnpParticleTypes) (line : String) (s : ParserState) :
    Except String ParserState :=
  match s.lfTally with
  | some .TALLY_HEAD => tallyHeadStep table line s
  | some .TALLY_PARTICLE => tallyParticleStep table line s
  | some .TALLY_FC =>
    if pyStarts line "     " then
      match s.current_tally with
      | some ct =>
        .ok { s with current_tally := some { ct with fc_data := ct.fc_data ++ [pyStrip line] } }
      | none => .error "AttributeError: _current_tally"
    else
      tallyBinStep line { s with lfTally := some .TALLY_BIN }
  | some .TALLY_BIN => tallyBinStep line s
  | some .TALLY_BIN_DATA => tallyBinDataStep line s
  | some .TALLY_VALS => tallyValsStep line s
  | some .TALLY_TFC => tallyTfcStep line s
  | _ => .ok s

/-- One iteration of the `for line in lines` loop: dispatch on `lf`, then
within HEAD on `lfHead`.  An `lf`/`lfHead` combination matching no branch
consumes the line without effect, as in the source. -/
def parseStep (table : McnpParticleTypes) (s : ParserState) (line : String) :
    Except String ParserState :=
  if s.lf = .HEAD then
    match s.lfHead with
    | .HEAD_HEADER => headHeaderStep line s
    | .HEAD_TITLE => headTitleStep line s
    | .HEAD_NTAL => headNtalStep line s
    | .HEAD_TALLY => headTallyStep line s
    | _ => .ok s
  else if s.lf = .TALLY then tallyStep table line s
  else .ok s

/-- The initial state of `parse_lines`. -/
def initState : ParserState := {}

/-- `MctalParser.parse_lines(lines)`: fold the per-line step over the input
and return `self._overview` (whose absence — an empty input — raises
`AttributeError`). -/
def parse_lines (table : McnpParticleTypes) (lines : List String) :
    Except String MctalOverview := do
  let s ← lines.foldlM (fun st line => parseStep table st line) initState
  toExcept s.overview "AttributeError: _overview"

/-! ## Spec-side definitions

`specRowMajorOffset` renders the spec's independently-stated row-major rule:
iterate axes from T (innermost) back to F (outermost), accumulating
`offset += index * multiplier; multiplier *= size`. -/

/-- Product of a list of integers. -/
def listProdInt (l : List Int) : Int := l.foldr (fun a b => a * b) 1

/-- Product of a list of naturals. -/
def listProdNat (l : List Nat) : Nat := l.foldr (fun a b => a * b) 1

/-- The spec's offset accumulator over `(index, size)` pairs in canonical
F-to-T order: processed from T back to F, returning
`(offset, multiplier)`. -/
def specRowMajorAcc (pairs : List (Int × Int)) : Int × Int :=
  pairs.foldr (fun p acc => (acc.1 + p.1 * acc.2, acc.2 * p.2)) (0, 1)

/-- The spec's row-major flat offset with T fastest-varying. -/
def specRowMajorOffset (pairs : List (Int × Int)) : Int :=
  (specRowMajorAcc pairs).1

/-- The normalized ("logical") size of a declared axis size, as used by
`MctalTally.value`: 0 means absent and counts as 1. -/
def normSize (c : Int) : Int := if c = 0 then 1 else c

/-- The canonical axis keys of a completely parsed tally's `bin` dict, paired
with their enum members, in canonical order. -/
def canonKeys : List (String × McnpTallyBinEnum) :=
  [("F", .F), ("D", .D), ("U", .U), ("S", .S), ("M", .M), ("C", .C), ("E", .E), ("T", .T)]

/-- A tally whose `bin` dict holds the eight canonical axes in canonical order
with the given declared sizes (qualifier and payload do not influence value
addressing), and the given flattened values. -/
def canonicalTally (cs : List Int) (vals : List (PyFloat × PyFloat)) : MctalTally :=
  { bin := (List.zip canonKeys cs).map (fun p => (p.1.1, (p.1.2, p.2, "", ([] : List PyFloat)))),
    vals_data := vals }

/-! ## Lemmas about value addressing -/

/-- The multiplier accumulated by the spec's rule is the product of the
sizes. -/
theorem specRowMajorAcc_snd (pairs : List (Int × Int)) :
    (specRowMajorAcc pairs).2 = listProdInt (pairs.map Prod.snd) := by
  induction pairs with
  | nil => rfl
  | cons p ps ih =>
    simp only [specRowMajorAcc, listProdInt, List.foldr, List.map] at ih ⊢
    rw [ih, Int.mul_comm]

/-- For in-bounds pairs the accumulated offset lies in `[0, product)`. -/
theorem specRowMajorAcc_bounds (pairs : List (Int × Int))
    (h : ∀ p ∈ pairs, 0 ≤ p.1 ∧ p.1 < p.2) :
    0 ≤ (specRowMajorAcc pairs).1 ∧
      (specRowMajorAcc pairs).1 < (specRowMajorAcc pairs).2 ∧
      0 < (specRowMajorAcc pairs).2 := by
  induction pairs with
  | nil => simp [specRowMajorAcc]
  | cons p ps ih =>
    have hp := h p (List.mem_cons_self p ps)
    have hps := ih (fun q hq => h q (List.mem_cons_of_mem p hq))
    simp only [specRowMajorAcc, List.foldr] at hps ⊢
    obtain ⟨h0, hlt, hpos⟩ := hps
    refine ⟨by nlinarith, ?_, by nlinarith⟩
    nlinarith

/-- With indices matching the bins in number and all in bounds of the
normalized sizes, the loop inside `value` computes exactly the spec's
row-major accumulator over `(index, normalized size)` pairs. -/
theorem valueLoop_ok (bins : List (String × BinTuple)) (idx : List Int)
    (hlen : idx.length = bins.length)
    (hb : ∀ p ∈ List.zip idx (bins.map (fun b => normSize b.2.2.1)), 0 ≤ p.1 ∧ p.1 < p.2) :
    valueLoop bins idx =
      .ok (specRowMajorAcc (List.zip idx (bins.map (fun b => normSize b.2.2.1)))) := by
  induction bins generalizing idx with
  | nil =>
    cases idx with
    | nil => rfl
    | cons i ir => simp at hlen
  | cons b rest ih =>
    cases idx with
    | nil => simp at hlen
    | cons i ir =>
      obtain ⟨bin_key, bt⟩ := b
      have hlen' : ir.length = rest.length := by simpa using hlen
      have hbHead := hb (i, normSize bt.2.1) (by simp [List.zip])
      have hbRest : ∀ p ∈ List.zip ir (rest.map (fun b => normSize b.2.2.1)),
          0 ≤ p.1 ∧ p.1 < p.2 := by
        intro p hp
        exact hb p (by simp [List.zip] at hp ⊢; exact Or.inr hp)
      have := ih ir hlen' hbRest
      simp only [valueLoop, this, Except.bind, specRowMajorAcc, List.zip, List.zipWith,
        List.map, List.foldr]
      have hn : ¬ (i < 0 ∨ i ≥ (if bt.2.1 = 0 then 1 else bt.2.1)) := by
        simp only [normSize] at hbHead
        omega
      simp only [hn, if_false, normSize, specRowMajorAcc]
      rfl

/-- With indices matching the bins in number but some index out of bounds of
its normalized size, the loop inside `value` raises. -/
theorem valueLoop_err (bins : List (String × BinTuple)) (idx : List Int)
    (hlen : idx.length = bins.length)
    (hbad : ∃ p ∈ List.zip idx (bins.map (fun b => normSize b.2.2.1)), ¬(0 ≤ p.1 ∧ p.1 < p.2)) :
    ∃ msg, valueLoop bins idx = .error msg := by
  induction bins generalizing idx with
  | nil =>
    cases idx with
    | nil => simp [List.zip] at hbad
    | cons i ir => simp at hlen
  | cons b rest ih =>
    cases idx with
    | nil => simp at hlen
    | cons i ir =>
      obtain ⟨bin_key, bt⟩ := b
      have hlen' : ir.length = rest.length := by simpa using hlen
      by_cases hrest : ∃ p ∈ List.zip ir (rest.map (fun b => normSize b.2.2.1)),
          ¬(0 ≤ p.1 ∧ p.1 < p.2)
      · obtain ⟨msg, hmsg⟩ := ih ir hlen' hrest
        refine ⟨msg, ?_⟩
        simp only [valueLoop, hmsg]
        rfl
      · push_neg at hrest
        have hok := valueLoop_ok rest ir hlen' (by
          intro p hp
          exact hrest p hp)
        have hbadHead : ¬(0 ≤ i ∧ i < normSize bt.2.1) := by
          obtain ⟨p, hp, hnp⟩ := hbad
          have hp' : p = (i, normSize bt.2.1) ∨
              p ∈ List.zip ir (rest.map (fun b => normSize b.2.2.1)) := by
            simpa using hp
          rcases hp' with rfl | hp'
          · exact hnp
          · exact absurd (hrest p hp') hnp
        refine ⟨"Index out of range for bin " ++ bin_key, ?_⟩
        simp only [valueLoop, hok, Except.bind]
        have : i < 0 ∨ i ≥ (if bt.2.1 = 0 then 1 else bt.2.1) := by
          simp only [normSize] at hbadHead
          omega
        simp only [this, if_true]
        rfl

/-- The second components of a zip, when the second list is not longer. -/
theorem zip_snd_map (l1 : List α) (l2 : List β) (h : l2.length ≤ l1.length) :
    (List.zip l1 l2).map Prod.snd = l2 := by
  induction l1 generalizing l2 with
  | nil =>
    cases l2 with
    | nil => rfl
    | cons b bs => simp at h
  | cons a as ih =>
    cases l2 with
    | nil => rfl
    | cons b bs =>
      have := ih bs (by simpa using h)
      simp only [List.zip] at this ⊢
      simp [this]

/-- A product of positives is positive. -/
theorem listProdInt_pos (l : List Int) (h : ∀ x ∈ l, 0 < x) : 0 < listProdInt l := by
  induction l with
  | nil => simp [listProdInt]
  | cons a as ih =>
    have := h a (List.mem_cons_self a as)
    have := ih (fun x hx => h x (List.mem_cons_of_mem a hx))
    simp only [listProdInt, List.foldr] at *
    positivity

/-- Normalized sizes of a canonical tally's bins are the normalized declared
sizes. -/
theorem canonicalTally_norm (cs : List Int) (vals : List (PyFloat × PyFloat))
    (hcs : cs.length = 8) :
    (canonicalTally cs vals).bin.map (fun b => normSize b.2.2.1) = cs.map normSize := by
  have h2 : (List.zip canonKeys cs).map Prod.snd = cs :=
    zip_snd_map canonKeys cs (by simp [canonKeys, hcs])
  calc (canonicalTally cs vals).bin.map (fun b => normSize b.2.2.1)
      = (List.zip canonKeys cs).map (fun p => normSize p.2) := by
        simp only [canonicalTally, List.map_map]
        rfl
    _ = ((List.zip canonKeys cs).map Prod.snd).map normSize := by
        simp only [List.map_map]
        rfl
    _ = cs.map normSize := by rw [h2]

/-- A canonical tally has eight bins. -/
theorem canonicalTally_bin_length (cs : List Int) (vals : List (PyFloat × PyFloat))
    (hcs : cs.length = 8) : (canonicalTally cs vals).bin.length = 8 := by
  simp [canonicalTally, canonKeys, List.length_zip, hcs]

/-! ## Concrete scenario inputs -/

/-- Modelled from the spec: a concrete instance of the external particle
lookup (`McnpParticleTypes`), which the spec describes only through "get
descriptive record by numeric type index" and "total number of known particle
types".  The real table ships 37 particle types with ipt 1..37. -/
def mcnpParticleTable : McnpParticleTypes :=
  { num_particles := 37,
    particle_by_ipt := fun i => if 1 ≤ i ∧ i ≤ 37 then some { ipt := i } else none }

/-- End-to-end scenario A: one tally with axes sized
(F=2, D=1, U=1, S=1, M=1, C=1, E=3, T=1), qualifier blank everywhere. -/
def scenarioALines : List String :=
  ["mcnp6 6 12/18/25 12:51:58 7 100 42",
   " scenario a",
   "ntal 1",
   "1",
   "tally 1 1 0 0",
   "f        2",
   "1 2",
   "d        1",
   "u        1",
   "s        1",
   "m        1",
   "c        1",
   "0.5",
   "e        3",
   "1.0 2.0 3.0",
   "t        1",
   "10.0",
   "vals",
   "1.0 0.1 2.0 0.2 3.0 0.3 4.0 0.4 5.0 0.5 6.0 0.6",
   "tfc 1 1 1 1 1 1 1 1 1",
   "10 1.0 0.5 2.0"]

/-! ## Claim theorems -/

/-- C10: `MctalTally.value` raises the error `No VALS data available for this
tally` whenever the tally's flattened value list `vals_data` is empty, before
any validation of the coordinate, so even a correctly-sized fully in-bounds
coordinate fails on an unpopulated tally. -/
theorem C10_value_requires_vals (t : MctalTally) (indices : List Int)
    (h : t.vals_data = []) :
    t.value indices = .error "No VALS data available for this tally" := by
  simp [MctalTally.value, h]

/-- Witness for C10 at a tally with canonically sized bins and a correctly
sized, fully in-bounds coordinate. -/
theorem C10_value_requires_vals_witness :
    (canonicalTally [2, 1, 1, 1, 1, 1, 3, 1] []).vals_data = [] ∧
    (canonicalTally [2, 1, 1, 1, 1, 1, 3, 1] []).value [1, 0, 0, 0, 0, 0, 2, 0] =
      .error "No VALS data available for this tally" :=
  ⟨rfl, C10_value_requires_vals (canonicalTally [2, 1, 1, 1, 1, 1, 3, 1] [])
    [1, 0, 0, 0, 0, 0, 2, 0] rfl⟩

/-- C1: for a completely parsed tally — `bin` holding the eight canonical axes
F,D,U,S,M,C,E,T in canonical order, `vals_data` fully populated to the product
of normalized sizes — `value` at an in-bounds eight-component coordinate
returns exactly the `vals_data` entry at the row-major flat offset with T
fastest-varying (offset accumulated from T back to F by
`offset += index * multiplier; multiplier *= normalized size`); `value` fails
with an out-of-range condition whenever some index is outside its axis's
bound; and in the end-to-end scenario with sizes
(F=2, D=1, U=1, S=1, M=1, C=1, E=3, T=1), `total_vals() = 6` and coordinate
(1,0,0,0,0,0,2,0) addresses flattened index 5. -/
theorem C1_value_row_major (cs : List Int) (vals : List (PyFloat × PyFloat)) (idx : List Int)
    (hcs : cs.length = 8) (hnn : ∀ c ∈ cs, 0 ≤ c)
    (hvals : (vals.length : Int) = listProdInt (cs.map normSize))
    (hidx : idx.length = 8)
    (hb : ∀ p ∈ List.zip idx (cs.map normSize), 0 ≤ p.1 ∧ p.1 < p.2) :
    (0 ≤ specRowMajorOffset (List.zip idx (cs.map normSize)) ∧
      ∃ v, vals.get? (specRowMajorOffset (List.zip idx (cs.map normSize))).toNat = some v ∧
        (canonicalTally cs vals).value idx = .ok v) ∧
    (∀ idx2 : List Int, idx2.length = 8 →
      (∃ p ∈ List.zip idx2 (cs.map normSize), ¬(0 ≤ p.1 ∧ p.1 < p.2)) →
      ∃ msg, (canonicalTally cs vals).value idx2 = .error msg) ∧
    ((parse_lines mcnpParticleTable scenarioALines).map (fun ov =>
        (dictGet ov.tallies 1).map (fun t =>
          (t.total_vals,
           t.value [1, 0, 0, 0, 0, 0, 2, 0] ==
             toExcept (pyGetItem t.vals_data 5) "IndexError: list index out of range"))) =
      .ok (some (6, true))) := by
  have hnormmap : (canonicalTally cs vals).bin.map (fun b => normSize b.2.2.1) =
      cs.map normSize := canonicalTally_norm cs vals hcs
  have hbinlen : (canonicalTally cs vals).bin.length = 8 :=
    canonicalTally_bin_length cs vals hcs
  have hprodpos : 0 < listProdInt (cs.map normSize) := by
    apply listProdInt_pos
    intro x hx
    obtain ⟨c, hc, rfl⟩ := List.mem_map.mp hx
    have := hnn c hc
    simp only [normSize]
    split <;> omega
  have hvne : vals ≠ [] := by
    intro hcon
    rw [hcon] at hvals
    simp at hvals
    omega
  refine ⟨?_, ?_, by decide⟩
  · -- in-bounds round-trip
    have hok := valueLoop_ok (canonicalTally cs vals).bin idx
      (by rw [hbinlen, hidx]) (by rw [hnormmap]; exact hb)
    have hbounds := specRowMajorAcc_bounds (List.zip idx (cs.map normSize)) hb
    have hsnd : (List.zip idx (cs.map normSize)).map Prod.snd = cs.map normSize := by
      apply zip_snd_map
      simp [hidx, hcs]
    have hacc2 := specRowMajorAcc_snd (List.zip idx (cs.map normSize))
    rw [hsnd] at hacc2
    obtain ⟨h0, hlt, hpos⟩ := hbounds
    rw [hacc2] at hlt
    have hltlen : (specRowMajorOffset (List.zip idx (cs.map normSize))).toNat < vals.length := by
      unfold specRowMajorOffset
      omega
    refine ⟨h0, vals.get ⟨_, hltlen⟩, List.get?_eq_get hltlen, ?_⟩
    unfold MctalTally.value
    rw [hnormmap] at hok
    have hvd : (canonicalTally cs vals).vals_data = vals := rfl
    rw [hvd, if_neg hvne, hbinlen, hidx, if_neg (by omega : ¬ (8 : Nat) ≠ 8), hok]
    have hget : pyGetItem vals (specRowMajorAcc (List.zip idx (cs.map normSize))).1 =
        some (vals.get ⟨(specRowMajorOffset (List.zip idx (cs.map normSize))).toNat, hltlen⟩) := by
      unfold pyGetItem
      rw [if_neg (by omega)]
      exact List.get?_eq_get hltlen
    show (Except.ok (specRowMajorAcc (List.zip idx (cs.map normSize)))).bind _ = _
    simp only [Except.bind, hget]
    rfl
  · -- out-of-range failure
    intro idx2 hidx2 hbad
    obtain ⟨msg, hmsg⟩ := valueLoop_err (canonicalTally cs vals).bin idx2
      (by rw [hbinlen, hidx2]) (by rw [hnormmap]; exact hbad)
    refine ⟨msg, ?_⟩
    unfold MctalTally.value
    have hvd : (canonicalTally cs vals).vals_data = vals := rfl
    rw [hvd, if_neg hvne, hbinlen, hidx2, if_neg (by omega : ¬ (8 : Nat) ≠ 8), hmsg]
    rfl

/-- Six flattened (value, uncertainty) entries for scenario-sized tallies. -/
def sampleVals : List (PyFloat × PyFloat) :=
  [({ mantissa := 1, exp10 := 0 }, { mantissa := 0, exp10 := 0 }),
   ({ mantissa := 2, exp10 := 0 }, { mantissa := 0, exp10 := 0 }),
   ({ mantissa := 3, exp10 := 0 }, { mantissa := 0, exp10 := 0 }),
   ({ mantissa := 4, exp10 := 0 }, { mantissa := 0, exp10 := 0 }),
   ({ mantissa := 5, exp10 := 0 }, { mantissa := 0, exp10 := 0 }),
   ({ mantissa := 6, exp10 := 0 }, { mantissa := 0, exp10 := 0 })]

/-- Witness for C1 at sizes (2,1,1,1,1,1,3,1) and coordinate
(1,0,0,0,0,0,2,0). -/
theorem C1_value_row_major_witness :
    (0 ≤ specRowMajorOffset (List.zip ([1, 0, 0, 0, 0, 0, 2, 0] : List Int)
        (([2, 1, 1, 1, 1, 1, 3, 1] : List Int).map normSize)) ∧
      ∃ v, sampleVals.get? (specRowMajorOffset (List.zip ([1, 0, 0, 0, 0, 0, 2, 0] : List Int)
          (([2, 1, 1, 1, 1, 1, 3, 1] : List Int).map normSize))).toNat = some v ∧
        (canonicalTally [2, 1, 1, 1, 1, 1, 3, 1] sampleVals).value
          [1, 0, 0, 0, 0, 0, 2, 0] = .ok v) ∧
    (∀ idx2 : List Int, idx2.length = 8 →
      (∃ p ∈ List.zip idx2 ((([2, 1, 1, 1, 1, 1, 3, 1] : List Int)).map normSize),
        ¬(0 ≤ p.1 ∧ p.1 < p.2)) →
      ∃ msg, (canonicalTally [2, 1, 1, 1, 1, 1, 3, 1] sampleVals).value idx2 = .error msg) ∧
    ((parse_lines mcnpParticleTable scenarioALines).map (fun ov =>
        (dictGet ov.tallies 1).map (fun t =>
          (t.total_vals,
           t.value [1, 0, 0, 0, 0, 0, 2, 0] ==
             toExcept (pyGetItem t.vals_data 5) "IndexError: list index out of range"))) =
      .ok (some (6, true))) :=
  C1_value_row_major [2, 1, 1, 1, 1, 1, 3, 1] sampleVals [1, 0, 0, 0, 0, 0, 2, 0]
    (by decide) (by decide) (by decide) (by decide) (by decide)

/-! ## Mixed-radix enumeration lemmas for the strided indexer -/

/-- Shifting the initial accumulator out of `sumZip`'s fold. -/
theorem sumZip_foldl_init (l : List (Nat × Int)) (a : Int) :
    l.foldl (fun x p => x + (p.1 : Int) * p.2) a =
      a + l.foldl (fun x p => x + (p.1 : Int) * p.2) 0 := by
  induction l generalizing a with
  | nil => simp
  | cons p ps ih =>
    simp only [List.foldl]
    rw [ih (a + (p.1 : Int) * p.2), ih ((0 : Int) + (p.1 : Int) * p.2)]
    ring

/-- `sumZip` on a cons. -/
theorem sumZip_cons (i : Nat) (s : Int) (c : List Nat) (ss : List Int) :
    sumZip (i :: c) (s :: ss) = (i : Int) * s + sumZip c ss := by
  simp only [sumZip, List.zip, List.zipWith, List.foldl]
  rw [sumZip_foldl_init]
  simp [sumZip, List.zip]

/-- The offsets produced by enumerating `itertools.product` over the sizes of
a `(size, stride)` pair list and summing index-times-stride. -/
def offsetsList (ps : List (Nat × Int)) : List Int :=
  (productRanges (ps.map Prod.fst)).map (fun c => sumZip c (ps.map Prod.snd))

/-- `offsetsList` on a cons: an outer loop over the head size. -/
theorem offsetsList_cons (n : Nat) (s : Int) (ps : List (Nat × Int)) :
    offsetsList ((n, s) :: ps) =
      (List.range n).flatMap (fun i => (offsetsList ps).map (fun o => (i : Int) * s + o)) := by
  simp only [offsetsList, productRanges, List.map_cons]
  rw [List.map_flatMap]
  congr 1
  funext i
  rw [List.map_map, List.map_map]
  congr 1
  funext c
  simp [sumZip_cons]

/-- `range (n * p)` as a double loop. -/
theorem range_mul_flatMap (n p : Nat) :
    List.range (n * p) =
      (List.range n).flatMap (fun i => (List.range p).map (fun k => i * p + k)) := by
  induction n with
  | zero => simp
  | succ n ih =>
    rw [Nat.succ_mul, List.range_add, ih, List.range_succ, List.flatMap_append]
    simp

/-- The canonical `(size, stride)` pair list of row-major order: each stride
is the product of the later sizes. -/
def mixedRadix : List Nat → List (Nat × Int)
  | [] => []
  | n :: ns => (n, (listProdNat ns : Int)) :: mixedRadix ns

/-- Sizes of the mixed-radix pair list. -/
theorem mixedRadix_fst (ns : List Nat) : (mixedRadix ns).map Prod.fst = ns := by
  induction ns with
  | nil => rfl
  | cons n ns ih => simp [mixedRadix, ih]

/-- `range (n * p)` cast to integers, as a double loop. -/
theorem range_mul_cast (n p : Nat) :
    (List.range (n * p)).map (fun k : Nat => (k : Int)) =
      (List.range n).flatMap (fun i =>
        (List.range p).map (fun k : Nat => (i : Int) * (p : Int) + (k : Int))) := by
  rw [range_mul_flatMap, List.map_flatMap]
  congr 1
  funext i
  rw [List.map_map]
  congr 1

/-- Enumerating the canonical mixed-radix pair list yields exactly
`0, 1, ..., product - 1` in order. -/
theorem offsetsList_mixedRadix (ns : List Nat) :
    offsetsList (mixedRadix ns) =
      (List.range (listProdNat ns)).map (fun k : Nat => (k : Int)) := by
  induction ns with
  | nil => decide
  | cons n ns ih =>
    rw [mixedRadix, offsetsList_cons, ih]
    have hprod : listProdNat (n :: ns) = n * listProdNat ns := by
      simp [listProdNat, List.foldr]
    rw [hprod, range_mul_cast]
    congr 1
    funext i
    rw [List.map_map]
    rfl

/-- Two leading axes of an offset enumeration, as nested multiset binds. -/
theorem offsetsList_two (a : Nat) (sa : Int) (b : Nat) (sb : Int) (l : List (Nat × Int)) :
    (offsetsList ((a, sa) :: (b, sb) :: l) : Multiset Int) =
      Multiset.bind ((List.range a : List Nat) : Multiset Nat) (fun i =>
        Multiset.bind ((List.range b : List Nat) : Multiset Nat) (fun j =>
          Multiset.map (fun o => (i : Int) * sa + ((j : Int) * sb + o))
            ((offsetsList l : List Int) : Multiset Int))) := by
  rw [offsetsList_cons, ← Multiset.coe_bind]
  congr 1
  funext i
  rw [offsetsList_cons, ← Multiset.map_coe, ← Multiset.coe_bind, Multiset.map_bind]
  congr 1
  funext j
  rw [← Multiset.map_coe, Multiset.map_map]
  rfl

/-- Permuting the `(size, stride)` pair list permutes the enumerated offsets:
the multiset of offsets is invariant.  (Nested loops over independent ranges
may be reordered freely because each offset is a commutative sum.) -/
theorem offsetsList_perm (ps qs : List (Nat × Int)) (h : ps.Perm qs) :
    (offsetsList ps : Multiset Int) = (offsetsList qs : Multiset Int) := by
  induction h with
  | nil => rfl
  | cons x h ih =>
    obtain ⟨n, s⟩ := x
    rw [offsetsList_cons, offsetsList_cons, ← Multiset.coe_bind, ← Multiset.coe_bind]
    congr 1
    funext i
    rw [← Multiset.map_coe, ← Multiset.map_coe, ih]
  | swap x y l =>
    obtain ⟨nx, sx⟩ := x
    obtain ⟨ny, sy⟩ := y
    rw [offsetsList_two, offsetsList_two, Multiset.bind_bind]
    apply Multiset.bind_congr
    intro i _
    apply Multiset.bind_congr
    intro j _
    congr 1
    funext o
    ring
  | trans h1 h2 ih1 ih2 => rw [ih1, ih2]

/-! ## Iterator plumbing lemmas -/

/-- `mapM` over `Except` succeeds pointwise. -/
theorem mapM_ok {α β : Type} (l : List α) (h : α → Except String β) (g : α → β)
    (hx : ∀ x ∈ l, h x = .ok (g x)) : l.mapM h = .ok (l.map g) := by
  induction l with
  | nil => rfl
  | cons a as ih =>
    rw [List.mapM_cons, hx a (List.mem_cons_self a as),
      ih (fun x hxx => hx x (List.mem_cons_of_mem a hxx))]
    rfl

/-- A key present among a dict's keys has a value. -/
theorem dictGet_of_mem_keys [DecidableEq κ] (d : List (κ × α)) (p : κ) (v : α)
    (h : p ∈ d.map Prod.fst) : dictGet d p = some ((dictGet d p).getD v) := by
  induction d with
  | nil => simp at h
  | cons kv rest ih =>
    by_cases hk : kv.1 = p
    · simp [dictGet, hk]
    · have : p ∈ rest.map Prod.fst := by
        rcases List.mem_map.mp h with ⟨q, hq, hqq⟩
        rcases List.mem_cons.mp hq with rfl | hq2
        · exact absurd hqq hk
        · exact List.mem_map.mpr ⟨q, hq2, hqq⟩
      simp only [dictGet]
      rw [if_neg hk]
      exact ih this

/-- First components of a zip, when the first list is not longer. -/
theorem zip_fst_map (l1 : List α) (l2 : List β) (h : l1.length ≤ l2.length) :
    (List.zip l1 l2).map Prod.fst = l1 := by
  induction l1 generalizing l2 with
  | nil => rfl
  | cons a as ih =>
    cases l2 with
    | nil => simp at h
    | cons b bs =>
      have := ih bs (by simpa using h)
      simp only [List.zip] at this ⊢
      simp [this]

/-- The keys of `computeStrides` are the input keys, reversed. -/
theorem computeStrides_keys (szs : List (String × Int)) :
    (computeStrides szs).map Prod.fst = (szs.map Prod.fst).reverse := by
  suffices h : ∀ (l : List (String × Int)) (acc : List (String × Int)) (st : Int),
      ((l.foldl (fun (a : List (String × Int) × Int) pv =>
        (a.1 ++ [(pv.1, a.2)], a.2 * pv.2)) (acc, st)).1).map Prod.fst =
      acc.map Prod.fst ++ l.map Prod.fst by
    have h2 := h szs.reverse [] 1
    simp only [computeStrides]
    rw [h2]
    simp
  intro l
  induction l with
  | nil => intro acc st; simp
  | cons pv rest ih =>
    intro acc st
    simp only [List.foldl]
    rw [ih]
    simp

/-- `_validate_inputs` accepts any free-axis list that is set-wise a
permutation of the eight parameters together with an empty fixed mapping, and
returns it unchanged. -/
theorem validate_perm_ok (it : MultiDimIterator) (fp : List String)
    (hparams : it.params = mdiParams) (hmem : ∀ p, p ∈ mdiParams → p ∈ fp)
    (hsub : ∀ p, p ∈ fp → p ∈ mdiParams) :
    it.validate fp [] = .ok fp := by
  unfold MultiDimIterator.validate
  rw [hparams]
  rw [if_neg (by
    simp only [not_not]
    exact List.all_eq_true.mpr (fun p hp => List.elem_eq_true_of_mem (hsub p hp)))]
  rw [if_neg (by
    simp [dictGet])]
  rw [if_neg (by
    simp only [ne_eq, not_not]
    exact List.filter_eq_nil_iff.mpr (fun p hp => by
      have hpf := hmem p hp
      simp [hpf, List.elem_eq_true_of_mem hpf]))]
  rfl

/-- `MultiDimIterator.make` on the full canonical size dict. -/
theorem make_zip8 (c0 c1 c2 c3 c4 c5 c6 c7 : Int) :
    MultiDimIterator.make (List.zip mdiParams [c0, c1, c2, c3, c4, c5, c6, c7]) =
      .ok { params := mdiParams,
            sizes := List.zip mdiParams [c0, c1, c2, c3, c4, c5, c6, c7],
            strides := computeStrides (List.zip mdiParams [c0, c1, c2, c3, c4, c5, c6, c7]) } :=
  rfl

/-- The per-parameter (size, stride) pairs of the canonical iterator, read
back through the dicts, form exactly the mixed-radix pair list. -/
theorem pairs_eq_mixedRadix (n0 n1 n2 n3 n4 n5 n6 n7 : Nat) :
    mdiParams.map (fun p =>
      (((dictGet (List.zip mdiParams [(n0 : Int), n1, n2, n3, n4, n5, n6, n7]) p).getD 0).toNat,
       (dictGet (computeStrides
         (List.zip mdiParams [(n0 : Int), n1, n2, n3, n4, n5, n6, n7])) p).getD 0)) =
    mixedRadix [n0, n1, n2, n3, n4, n5, n6, n7] := by
  simp [mdiParams, dictGet, computeStrides, mixedRadix, listProdNat]
  exact ⟨by ring, by ring, by ring, by ring, by ring, by ring⟩

/-- Integer product of cast naturals. -/
theorem listProdInt_cast (ns : List Nat) :
    listProdInt (ns.map (fun n : Nat => (n : Int))) = ((listProdNat ns : Nat) : Int) := by
  induction ns with
  | nil => rfl
  | cons n ns ih =>
    simp only [List.map, listProdInt, listProdNat, List.foldr] at ih ⊢
    rw [ih]
    push_cast
    ring

/-- `iter_indices` over a full free-axis permutation with no fixed values
materializes to the offsets enumeration of the per-axis (size, stride)
pairs, in the requested axis order. -/
theorem iter_indices_perm_ok (it : MultiDimIterator) (fp : List String)
    (hit : it.params = mdiParams) (hkeys_sizes : it.sizes.map Prod.fst = mdiParams)
    (hkeys_strides : ∀ p ∈ mdiParams, p ∈ (it.strides).map Prod.fst)
    (hperm : fp.Perm mdiParams) :
    it.iter_indices fp [] = .ok (offsetsList (fp.map (fun p =>
      (((dictGet it.sizes p).getD 0).toNat, (dictGet it.strides p).getD 0)))) := by
  have hmem : ∀ p, p ∈ mdiParams → p ∈ fp := fun p hp => hperm.mem_iff.mpr hp
  have hsub : ∀ p, p ∈ fp → p ∈ mdiParams := fun p hp => hperm.mem_iff.mp hp
  have hsz : ∀ p ∈ fp, toExcept (dictGet it.sizes p) ("KeyError: " ++ p) =
      .ok ((dictGet it.sizes p).getD 0) := by
    intro p hp
    have hk : p ∈ it.sizes.map Prod.fst := by rw [hkeys_sizes]; exact hsub p hp
    rw [dictGet_of_mem_keys it.sizes p 0 hk]
    rfl
  have hst : ∀ p ∈ fp, toExcept (dictGet it.strides p) ("KeyError: " ++ p) =
      .ok ((dictGet it.strides p).getD 0) := by
    intro p hp
    have hk : p ∈ it.strides.map Prod.fst := hkeys_strides p (hsub p hp)
    rw [dictGet_of_mem_keys it.strides p 0 hk]
    rfl
  unfold MultiDimIterator.iter_indices
  rw [validate_perm_ok it fp hit hmem hsub]
  show Except.bind _ _ = _
  simp only [Except.bind]
  show Except.bind _ _ = _
  simp only [List.foldlM, Except.bind]
  rw [mapM_ok fp _ (fun p => (dictGet it.sizes p).getD 0) hsz]
  show Except.bind _ _ = _
  simp only [Except.bind]
  rw [mapM_ok fp _ (fun p => (dictGet it.strides p).getD 0) hst]
  show Except.bind _ _ = _
  simp only [Except.bind]
  unfold offsetsList
  simp only [zero_add, List.map_map]
  rfl

/-- C4: for a `MultiDimIterator` built from any eight axis sizes all ≥ 1 and
every permutation of all eight axes supplied as `free_params` with an empty
`fixed_values` mapping, `iter_indices` yields exactly `product of sizes` flat
offsets forming a bijection onto `[0, product)` — the yielded list is, as a
multiset, exactly `0, ..., product - 1`, so reordering the free axes permutes
the sequence but never changes the set of offsets visited. -/
theorem C4_full_free_set_bijection (cs : List Int) (fp : List String) (it : MultiDimIterator)
    (hcs : cs.length = 8) (hpos : ∀ c ∈ cs, 1 ≤ c)
    (hmk : MultiDimIterator.make (List.zip mdiParams cs) = .ok it)
    (hperm : fp.Perm mdiParams) :
    ∃ l : List Int, it.iter_indices fp [] = .ok l ∧
      l.length = (listProdInt cs).toNat ∧
      (l : Multiset Int) =
        (((List.range (listProdInt cs).toNat).map (fun k : Nat => (k : Int)) : List Int) :
          Multiset Int) := by
  rcases cs with _ | ⟨c0, cs⟩
  · simp at hcs
  rcases cs with _ | ⟨c1, cs⟩
  · simp at hcs
  rcases cs with _ | ⟨c2, cs⟩
  · simp at hcs
  rcases cs with _ | ⟨c3, cs⟩
  · simp at hcs
  rcases cs with _ | ⟨c4, cs⟩
  · simp at hcs
  rcases cs with _ | ⟨c5, cs⟩
  · simp at hcs
  rcases cs with _ | ⟨c6, cs⟩
  · simp at hcs
  rcases cs with _ | ⟨c7, cs⟩
  · simp at hcs
  rcases cs with _ | ⟨c8, cs⟩
  case cons => simp at hcs
  obtain ⟨n0, rfl⟩ : ∃ n : Nat, c0 = (n : Int) := ⟨c0.toNat, by have := hpos c0 (by simp); omega⟩
  obtain ⟨n1, rfl⟩ : ∃ n : Nat, c1 = (n : Int) := ⟨c1.toNat, by have := hpos c1 (by simp); omega⟩
  obtain ⟨n2, rfl⟩ : ∃ n : Nat, c2 = (n : Int) := ⟨c2.toNat, by have := hpos c2 (by simp); omega⟩
  obtain ⟨n3, rfl⟩ : ∃ n : Nat, c3 = (n : Int) := ⟨c3.toNat, by have := hpos c3 (by simp); omega⟩
  obtain ⟨n4, rfl⟩ : ∃ n : Nat, c4 = (n : Int) := ⟨c4.toNat, by have := hpos c4 (by simp); omega⟩
  obtain ⟨n5, rfl⟩ : ∃ n : Nat, c5 = (n : Int) := ⟨c5.toNat, by have := hpos c5 (by simp); omega⟩
  obtain ⟨n6, rfl⟩ : ∃ n : Nat, c6 = (n : Int) := ⟨c6.toNat, by have := hpos c6 (by simp); omega⟩
  obtain ⟨n7, rfl⟩ : ∃ n : Nat, c7 = (n : Int) := ⟨c7.toNat, by have := hpos c7 (by simp); omega⟩
  rw [make_zip8] at hmk
  have hpar : it.params = mdiParams := by cases hmk; rfl
  have hsz : it.sizes =
      List.zip mdiParams [(n0 : Int), n1, n2, n3, n4, n5, n6, n7] := by cases hmk; rfl
  have hstr : it.strides =
      computeStrides (List.zip mdiParams [(n0 : Int), n1, n2, n3, n4, n5, n6, n7]) := by
    cases hmk; rfl
  have hkeys_sizes : it.sizes.map Prod.fst = mdiParams := by rw [hsz]; rfl
  have hkeys_strides : ∀ p ∈ mdiParams, p ∈ it.strides.map Prod.fst := by
    intro p hp
    have hzf : (List.zip mdiParams [(n0 : Int), n1, n2, n3, n4, n5, n6, n7]).map Prod.fst =
        mdiParams := rfl
    rw [hstr, computeStrides_keys, hzf]
    exact List.mem_reverse.mpr hp
  have hiter := iter_indices_perm_ok it fp hpar hkeys_sizes hkeys_strides hperm
  have hprodc : listProdInt [(n0 : Int), n1, n2, n3, n4, n5, n6, n7] =
      ((listProdNat [n0, n1, n2, n3, n4, n5, n6, n7] : Nat) : Int) := by
    have := listProdInt_cast [n0, n1, n2, n3, n4, n5, n6, n7]
    simpa using this
  have hms : ((offsetsList (fp.map (fun p =>
        (((dictGet it.sizes p).getD 0).toNat, (dictGet it.strides p).getD 0)))) :
        Multiset Int) =
      (((List.range (listProdInt [(n0 : Int), n1, n2, n3, n4, n5, n6, n7]).toNat).map
        (fun k : Nat => (k : Int)) : List Int) : Multiset Int) := by
    rw [offsetsList_perm _ _ (hperm.map _)]
    simp only [hsz, hstr]
    rw [pairs_eq_mixedRadix, offsetsList_mixedRadix, hprodc]
    simp
  refine ⟨_, hiter, ?_, hms⟩
  have hp2 := Multiset.coe_eq_coe.mp hms
  rw [hp2.length_eq]
  simp

/-- Witness for C4 at sizes (2,1,1,1,1,1,3,1) and the fully reversed free-axis
order. -/
theorem C4_full_free_set_bijection_witness :
    ∃ l : List Int,
      MultiDimIterator.iter_indices
        { params := mdiParams,
          sizes := List.zip mdiParams ([2, 1, 1, 1, 1, 1, 3, 1] : List Int),
          strides := computeStrides (List.zip mdiParams ([2, 1, 1, 1, 1, 1, 3, 1] : List Int)) }
        ["T", "E", "C", "M", "S", "U", "D", "F"] [] = .ok l ∧
      l.length = (listProdInt ([2, 1, 1, 1, 1, 1, 3, 1] : List Int)).toNat ∧
      (l : Multiset Int) =
        (((List.range (listProdInt ([2, 1, 1, 1, 1, 1, 3, 1] : List Int)).toNat).map
          (fun k : Nat => (k : Int)) : List Int) : Multiset Int) :=
  C4_full_free_set_bijection [2, 1, 1, 1, 1, 1, 3, 1] ["T", "E", "C", "M", "S", "U", "D", "F"]
    _ (by decide) (by decide) rfl (by decide)

/-- An iterator over sizes (F=2, D=1, U=1, S=1, M=1, C=1, E=3, T=1), as
`MultiDimIterator.make` constructs it. -/
def sampleIterator : MultiDimIterator :=
  { params := mdiParams,
    sizes := List.zip mdiParams ([2, 1, 1, 1, 1, 1, 3, 1] : List Int),
    strides := computeStrides (List.zip mdiParams ([2, 1, 1, 1, 1, 1, 3, 1] : List Int)) }

/-- C5 counterexample: the claim says an axis duplicated within `free_params`
fails deterministically before any offset is produced; but with `F` listed
twice among the free axes (and the remaining seven axes fixed), validation
passes — `set(free_params)` collapses the duplicate — and `iter_indices`
yields four offsets `0, 3, 3, 6`, visiting offsets repeatedly, without any
failure. -/
theorem C5_duplicate_free_axis_not_rejected :
    sampleIterator.iter_indices ["F", "F"]
      [("D", 0), ("U", 0), ("S", 0), ("M", 0), ("C", 0), ("E", 0), ("T", 0)] =
      .ok [0, 3, 3, 6] := by
  decide

/-- A fold of per-element checks over `Except` fails when some element
fails. -/
theorem foldlM_punit_err {α : Type} (f : PUnit → α → Except String PUnit) (l : List α)
    (x : α) (hx : x ∈ l) (he : ∃ e, f PUnit.unit x = .error e) :
    ∃ e, l.foldlM f PUnit.unit = .error e := by
  induction l with
  | nil => simp at hx
  | cons a as ih =>
    cases hfa : f PUnit.unit a with
    | error e =>
      refine ⟨e, ?_⟩
      rw [List.foldlM_cons, hfa]
      rfl
    | ok u =>
      rcases List.mem_cons.mp hx with rfl | hx2
      · obtain ⟨e, he2⟩ := he
        rw [hfa] at he2
        cases he2
      · obtain ⟨e, he2⟩ := ih hx2
        refine ⟨e, ?_⟩
        rw [List.foldlM_cons, hfa]
        cases u
        simpa using he2

/-- A fold of per-element checks over `Except` succeeds only if every element
check succeeds. -/
theorem foldlM_punit_ok {α : Type} (f : PUnit → α → Except String PUnit) (l : List α)
    (h : l.foldlM f PUnit.unit = .ok PUnit.unit) :
    ∀ x ∈ l, f PUnit.unit x = .ok PUnit.unit := by
  induction l with
  | nil => simp
  | cons a as ih =>
    rw [List.foldlM_cons] at h
    cases hfa : f PUnit.unit a with
    | error e =>
      rw [hfa] at h
      cases h
    | ok u =>
      rw [hfa] at h
      cases u
      intro x hx
      rcases List.mem_cons.mp hx with rfl | hx2
      · exact hfa
      · exact ih (by simpa using h) x hx2

/-- What a successful `_validate_inputs` guarantees: the free axes are known,
no axis is both free and fixed, every axis is covered, and every fixed index
is within its axis bound. -/
theorem validate_ok_facts (it : MultiDimIterator) (free : List String)
    (fixed : List (String × Int)) (res : List String)
    (h : it.validate free fixed = .ok res) :
    (∀ p ∈ free, p ∈ it.params) ∧
    (∀ p ∈ free, dictGet fixed p = none) ∧
    (∀ p ∈ it.params, p ∈ free ∨ (dictGet fixed p).isSome) ∧
    (∀ pv ∈ fixed, ∃ n, dictGet it.sizes pv.1 = some n ∧ 0 ≤ pv.2 ∧ pv.2 < n) := by
  unfold MultiDimIterator.validate at h
  split_ifs at h with h1 h2 h3
  refine ⟨?_, ?_, ?_, ?_⟩
  · intro p hp
    have := List.all_eq_true.mp h1 p hp
    simpa using this
  · intro p hp
    have h2m : ∀ q ∈ free, ¬ ((dictGet fixed q).isSome = true) := by
      intro q hq hcon
      exact h2 (List.any_eq_true.mpr ⟨q, hq, hcon⟩)
    have := h2m p hp
    cases hd : dictGet fixed p with
    | none => rfl
    | some v => exact absurd (by rw [hd]; rfl) this
  · intro p hp
    rw [ne_eq, not_not] at h3
    by_cases hf : p ∈ free
    · exact Or.inl hf
    · by_cases hx : (dictGet fixed p).isSome
      · exact Or.inr hx
      · exfalso
        have : p ∈ it.params.filter
            (fun q => decide (¬ free.contains q ∧ (dictGet fixed q).isNone)) := by
          rw [List.mem_filter]
          refine ⟨hp, ?_⟩
          simp only [decide_eq_true_eq]
          refine ⟨fun hcon => hf (by simpa using hcon), ?_⟩
          simp [Option.isNone_iff_eq_none]
          cases hd : dictGet fixed p with
          | none => rfl
          | some v => exact absurd (by rw [hd]; rfl) hx
        rw [h3] at this
        simp at this
  · intro pv hpv
    cases hfold : fixed.foldlM
        (fun (_ : PUnit) (pv : String × Int) =>
          (do
            let n ← toExcept (dictGet it.sizes pv.1) ("KeyError: " ++ pv.1)
            if 0 ≤ pv.2 ∧ pv.2 < n then .ok PUnit.unit
            else .error ("Invalid fixed value for " ++ pv.1) : Except String PUnit))
        PUnit.unit with
    | error e =>
      rw [hfold] at h
      cases h
    | ok u =>
      cases u
      have hstep := foldlM_punit_ok _ fixed hfold pv hpv
      cases hd : dictGet it.sizes pv.1 with
      | none =>
        rw [hd] at hstep
        simp only [toExcept] at hstep
        cases hstep
      | some n =>
        rw [hd] at hstep
        refine ⟨n, rfl, ?_⟩
        by_contra hcon
        have hstep2 : (if 0 ≤ pv.2 ∧ pv.2 < n then (Except.ok PUnit.unit : Except String PUnit)
            else .error ("Invalid fixed value for " ++ pv.1)) = .ok PUnit.unit := hstep
        rw [if_neg hcon] at hstep2
        cases hstep2

/-- C5 (amended): an Indexer iteration whose `free_params` and `fixed_values`
do not together cover the eight axes — an unknown free axis, an axis both free
and fixed, or an axis omitted from both — fails deterministically, as does any
fixed index outside `[0, size)`; the validation failure propagates to
`iter_indices` and `iter_coords` before any offset or coordinate is produced.
(An axis duplicated *within* `free_params` is, contrary to the original claim,
not rejected — see the counterexample theorem.) -/
theorem C5_incomplete_partition_fails (it : MultiDimIterator) (free : List String)
    (fixed : List (String × Int)) (hit : it.params = mdiParams) :
    ((∃ p ∈ free, p ∉ mdiParams) → ∃ e, it.validate free fixed = .error e) ∧
    ((∃ p ∈ free, (dictGet fixed p).isSome) → ∃ e, it.validate free fixed = .error e) ∧
    ((∃ p ∈ mdiParams, p ∉ free ∧ dictGet fixed p = none) →
      ∃ e, it.validate free fixed = .error e) ∧
    ((∃ pv ∈ fixed, ∃ n, dictGet it.sizes pv.1 = some n ∧ ¬(0 ≤ pv.2 ∧ pv.2 < n)) →
      ∃ e, it.validate free fixed = .error e) ∧
    (∀ e, it.validate free fixed = .error e →
      it.iter_indices free fixed = .error e ∧
      ∀ fmt, it.iter_coords free fixed fmt = .error e) := by
  refine ⟨?_, ?_, ?_, ?_, ?_⟩
  · intro ⟨p, hp, hnp⟩
    cases hv : it.validate free fixed with
    | error e => exact ⟨e, rfl⟩
    | ok res =>
      exfalso
      have hf := (validate_ok_facts it free fixed res hv).1 p hp
      rw [hit] at hf
      exact hnp hf
  · intro ⟨p, hp, hsome⟩
    cases hv : it.validate free fixed with
    | error e => exact ⟨e, rfl⟩
    | ok res =>
      exfalso
      have hf := (validate_ok_facts it free fixed res hv).2.1 p hp
      rw [hf] at hsome
      cases hsome
  · intro ⟨p, hp, hnf, hnone⟩
    cases hv : it.validate free fixed with
    | error e => exact ⟨e, rfl⟩
    | ok res =>
      exfalso
      have hf := (validate_ok_facts it free fixed res hv).2.2.1 p (by rw [hit]; exact hp)
      rcases hf with hf | hf
      · exact hnf hf
      · rw [hnone] at hf
        cases hf
  · intro ⟨pv, hpv, n, hn, hbad⟩
    cases hv : it.validate free fixed with
    | error e => exact ⟨e, rfl⟩
    | ok res =>
      exfalso
      obtain ⟨n2, hn2, hok⟩ := (validate_ok_facts it free fixed res hv).2.2.2 pv hpv
      rw [hn] at hn2
      cases hn2
      exact hbad hok
  · intro e he
    constructor
    · unfold MultiDimIterator.iter_indices
      rw [he]
      rfl
    · intro fmt
      unfold MultiDimIterator.iter_coords
      rw [he]
      rfl

/-- Witness for C5 at concrete invalid partitions over the sample sizes. -/
theorem C5_incomplete_partition_fails_witness :
    (∃ e, sampleIterator.validate ["F", "D", "U", "S", "M", "C", "E", "T", "X"] [] = .error e) ∧
    (∃ e, sampleIterator.validate ["F", "D", "U", "S", "M", "C", "E", "T"] [("T", 0)] =
      .error e) ∧
    (∃ e, sampleIterator.validate ["F", "D", "U", "S", "M", "C", "E"] [] = .error e) ∧
    (∃ e, sampleIterator.validate ["D", "U", "S", "M", "C", "E", "T"] [("F", 5)] = .error e) ∧
    (sampleIterator.iter_indices ["F", "D", "U", "S", "M", "C", "E"] [] =
      .error "Missing fixed values for parameters" ∧
     sampleIterator.iter_coords ["F", "D", "U", "S", "M", "C", "E"] [] "tuple" =
      .error "Missing fixed values for parameters") :=
  ⟨(C5_incomplete_partition_fails sampleIterator _ _ rfl).1 ⟨"X", by decide, by decide⟩,
   (C5_incomplete_partition_fails sampleIterator _ _ rfl).2.1 ⟨"T", by decide, by decide⟩,
   (C5_incomplete_partition_fails sampleIterator _ _ rfl).2.2.1 ⟨"T", by decide, by decide, by decide⟩,
   (C5_incomplete_partition_fails sampleIterator _ _ rfl).2.2.2.1
     ⟨("F", 5), by decide, 2, by decide, by decide⟩,
   ⟨((C5_incomplete_partition_fails sampleIterator ["F", "D", "U", "S", "M", "C", "E"] [] rfl).2.2.2.2
       "Missing fixed values for parameters" (by decide)).1,
    ((C5_incomplete_partition_fails sampleIterator ["F", "D", "U", "S", "M", "C", "E"] [] rfl).2.2.2.2
       "Missing fixed values for parameters" (by decide)).2 "tuple"⟩⟩

/-- End-to-end scenario C: a complete one-tally file whose tfc header
`tfc 2 1 1 1 1 1 1 2 1` is followed by exactly two data rows. -/
def tfcScenarioLines : List String :=
  ["mcnp6 6 12/18/25 12:51:58 7 100 42",
   " scenario c",
   "ntal 1",
   "1",
   "tally 1 1 0 0",
   "f        0",
   "d        0",
   "u        0",
   "s        0",
   "m        0",
   "c        0",
   "e        0",
   "t        0",
   "vals",
   "1.0 0.1",
   "tfc 2 1 1 1 1 1 1 2 1",
   "10 1.0 0.5 2.0",
   "20 2.0 0.4 3.0"]

/-- C6 counterexample: the claim says a third extra data row after the
declared tfc row count causes the parse to fail; instead the parse returns
normally — the completed tally is unchanged, with the reference coordinate
stored zero-based and exactly two rows — because the extra row is consumed by
the TALLY_HEAD state, whose non-matching lines are skipped (TMESH tallies are
NYI), not rejected. -/
theorem C6_extra_tfc_row_not_an_error :
    (parse_lines mcnpParticleTable (tfcScenarioLines ++ ["30 3.0 0.3 4.0"])).map (fun ov =>
      (dictGet ov.tallies 1).map (fun t => (t.tfc_bin, t.tfc_data.length))) =
      .ok (some ([0, 0, 0, 0, 0, 0, 1, 0], 2)) := by
  decide

/-- C6 (amended): parsing the tfc header `tfc 2 1 1 1 1 1 1 2 1` followed by
exactly 2 data rows stores the fluctuation-chart reference coordinate
zero-based as (0,0,0,0,0,0,1,0) and exactly 2 tfc rows, completing the tally;
a 3rd extra data row after the declared row count is consumed without effect
by the TALLY_HEAD state (the parse result is identical with or without it)
rather than failing. -/
theorem C6_tfc_rows_stored_extra_row_ignored :
    ((parse_lines mcnpParticleTable tfcScenarioLines).map (fun ov =>
      (dictGet ov.tallies 1).map (fun t => (t.tfc_bin, t.tfc_data.length))) =
      .ok (some ([0, 0, 0, 0, 0, 0, 1, 0], 2))) ∧
    parse_lines mcnpParticleTable (tfcScenarioLines ++ ["30 3.0 0.3 4.0"]) =
      parse_lines mcnpParticleTable tfcScenarioLines := by
  exact ⟨by decide, by decide⟩

/-- A header whose tally-number list is split across two lines, each holding
fewer than `ntal` numbers. -/
def splitTallyNumsLines : List String :=
  ["mcnp6 6 12/18/25 12:51:58 7 100 42",
   " scenario",
   "ntal 4",
   "1 4",
   "14 24"]

/-- C7: evaluating the parser at a tally-number list split over two lines.
The source's `while len(tally_nums) < ntal` loop re-splits the *same* line
each iteration (`continue` targets the `while`, not the `for`), so the first
line `1 4` is consumed twice, yielding `tally_nums = [1, 4, 1, 4]` instead of
`[1, 4, 14, 24]`; the second line `14 24` is then silently swallowed by the
TALLY_HEAD state. -/
theorem C7_split_tally_numbers_reread_same_line :
    (parse_lines mcnpParticleTable splitTallyNumsLines).map (fun ov => ov.tally_nums) =
      .ok [1, 4, 1, 4] := by
  decide

/-- A tally-head line with a zero particle bitmask at the very end of the
input (the particle-flag line is missing). -/
def truncatedHeadLines : List String :=
  ["mcnp6 6 12/18/25 12:51:58 7 100 42",
   " scenario",
   "ntal 1",
   "1",
   "tally 1 0 0 0"]

/-- C9 counterexample: the claim says exhausting the input right after a
zero-bitmask tally-head line makes `parse_lines` fail; instead it returns an
Overview normally (with the incomplete tally simply absent), because the loop
has no end-of-input under-run check and the final `return self._overview` is
unconditional. -/
theorem C9_truncated_input_returns_ok :
    (parse_lines mcnpParticleTable truncatedHeadLines).map (fun ov =>
      (ov.tally_nums, ov.tallies.length)) = .ok ([1], 0) := by
  decide

/-- C9 (amended): with the input exhausted right after a zero-bitmask
tally-head line, `parse_lines` returns the header Overview normally; the
incomplete tally is never inserted, so no tally — with zero particles or
otherwise — appears in `tallies`.  The under-run is silently ignored, not
treated as malformed input. -/
theorem C9_truncated_input_overview :
    parse_lines mcnpParticleTable truncatedHeadLines =
      .ok { code_name := "mcnp6", version := "6", probid := "12/18/25 12:51:58",
            knod := 7, nps := 100, rnr := 42, title := "scenario",
            tally_nums := [1], tallies := [] } := by
  decide

/-! ## The completed-tally invariant of the parser (C2) -/

/-- `toExcept` succeeds exactly on `some`. -/
theorem toExcept_ok_iff {α : Type} {o : Option α} {msg : String} {a : α} :
    toExcept o msg = .ok a ↔ o = some a := by
  cases o <;> simp [toExcept]

/-- Inversion of a successful `Except` bind. -/
theorem exceptBind_ok {α β : Type} {x : Except String α} {f : α → Except String β} {b : β}
    (h : x >>= f = .ok b) : ∃ a, x = .ok a ∧ f a = .ok b := by
  cases x with
  | error e => exact absurd h (by simp [Bind.bind, Except.bind])
  | ok a => exact ⟨a, rfl, by simpa [Bind.bind, Except.bind] using h⟩

/-- Membership in a dict after an update. -/
theorem mem_dictSet {κ α : Type} [DecidableEq κ] (d : List (κ × α)) (k : κ) (v : α) :
    ∀ p ∈ dictSet d k v, p ∈ d ∨ p = (k, v) := by
  induction d with
  | nil =>
    intro p hp
    simp only [dictSet, List.mem_singleton] at hp
    exact Or.inr hp
  | cons kv rest ih =>
    intro p hp
    simp only [dictSet] at hp
    split at hp
    · rcases List.mem_cons.mp hp with rfl | hp2
      · rename_i hk
        right
        rw [← hk]
      · exact Or.inl (List.mem_cons_of_mem _ hp2)
    · rcases List.mem_cons.mp hp with rfl | hp2
      · exact Or.inl (List.mem_cons_self _ _)
      · rcases ih p hp2 with h2 | h2
        · exact Or.inl (List.mem_cons_of_mem _ h2)
        · exact Or.inr h2

/-- The tally invariant of C2: the product of normalized axis sizes equals the
length of the flattened value list. -/
def TallyOk (t : MctalTally) : Prop := t.total_vals = (t.vals_data.length : Int)

/-- The completed tallies held by a parser state. -/
def stateTallies (s : ParserState) : List (Int × MctalTally) :=
  match s.overview with
  | some ov => ov.tallies
  | none => []

/-- The parse-loop invariant: every completed tally satisfies `TallyOk`; in
the TALLY_VALS state `expected` is the current tally's `total_vals()`; in the
TALLY_TFC state the current tally already satisfies `TallyOk`. -/
def ParserInv (s : ParserState) : Prop :=
  (∀ kt ∈ stateTallies s, TallyOk kt.2) ∧
  (s.lfTally = some .TALLY_VALS →
    ∃ ct, s.current_tally = some ct ∧ s.expected = some ct.total_vals) ∧
  (s.lfTally = some .TALLY_TFC → ∃ ct, s.current_tally = some ct ∧ TallyOk ct)

theorem headHeaderStep_inv (line : String) (s s' : ParserState)
    (h : headHeaderStep line s = .ok s') (hi : ParserInv s) : ParserInv s' := by
  unfold headHeaderStep at h
  split at h
  · obtain ⟨knod, hk, h⟩ := exceptBind_ok h
    obtain ⟨nps, hn, h⟩ := exceptBind_ok h
    obtain ⟨rnr, hr, h⟩ := exceptBind_ok h
    cases h
    obtain ⟨ha, hb, hc⟩ := hi
    exact ⟨fun kt hkt => by simp [stateTallies] at hkt, hb, hc⟩
  · cases h

theorem headTitleStep_inv (line : String) (s s' : ParserState)
    (h : headTitleStep line s = .ok s') (hi : ParserInv s) : ParserInv s' := by
  unfold headTitleStep at h
  split at h
  · rename_i ov hov
    cases h
    obtain ⟨ha, hb, hc⟩ := hi
    refine ⟨?_, hb, hc⟩
    intro kt hkt
    apply ha
    simp only [stateTallies, hov]
    simpa [stateTallies] using hkt
  · cases h

theorem headNtalStep_inv (line : String) (s s' : ParserState)
    (h : headNtalStep line s = .ok s') (hi : ParserInv s) : ParserInv s' := by
  unfold headNtalStep at h
  obtain ⟨ha, hb, hc⟩ := hi
  split at h
  · obtain ⟨n, hn, h⟩ := exceptBind_ok h
    cases h
    exact ⟨ha, hb, hc⟩
  · obtain ⟨n, hn, h⟩ := exceptBind_ok h
    obtain ⟨m, hm, h⟩ := exceptBind_ok h
    cases h
    exact ⟨ha, hb, hc⟩
  · cases h

theorem headTallyStep_inv (line : String) (s s' : ParserState)
    (h : headTallyStep line s = .ok s') (hi : ParserInv s) : ParserInv s' := by
  unfold headTallyStep at h
  obtain ⟨ha, hb, hc⟩ := hi
  obtain ⟨ntal, hntal, h⟩ := exceptBind_ok h
  obtain ⟨ov, hov, h⟩ := exceptBind_ok h
  obtain ⟨parts, hparts, h⟩ := exceptBind_ok h
  split at h
  · cases h
  · split at h
    · cases h
      refine ⟨?_, fun hv => by simp at hv, fun hv => by simp at hv⟩
      intro kt hkt
      apply ha
      rw [toExcept_ok_iff] at hov
      simp only [stateTallies, hov]
      simpa [stateTallies] using hkt
    · cases h

theorem tallyHeadStep_inv (table : McnpParticleTypes) (line : String) (s s' : ParserState)
    (h : tallyHeadStep table line s = .ok s') (hi : ParserInv s)
    (_hlf : s.lfTally = some .TALLY_HEAD) : ParserInv s' := by
  unfold tallyHeadStep at h
  obtain ⟨ha, hb, hc⟩ := hi
  split at h
  · cases h
  · split at h
    · obtain ⟨tn, htn, h⟩ := exceptBind_ok h
      obtain ⟨tp, htp, h⟩ := exceptBind_ok h
      obtain ⟨d, hd, h⟩ := exceptBind_ok h
      obtain ⟨m, hm, h⟩ := exceptBind_ok h
      obtain ⟨dt, hdt, h⟩ := exceptBind_ok h
      obtain ⟨mt, hmt, h⟩ := exceptBind_ok h
      split at h
      · obtain ⟨ps, hps, h⟩ := exceptBind_ok h
        cases h
        exact ⟨ha, fun hv => by simp at hv, fun hv => by simp at hv⟩
      · cases h
        exact ⟨ha, fun hv => by simp at hv, fun hv => by simp at hv⟩
    · cases h
      exact ⟨ha, hb, hc⟩

theorem tallyParticleStep_inv (table : McnpParticleTypes) (line : String) (s s' : ParserState)
    (h : tallyParticleStep table line s = .ok s') (hi : ParserInv s) : ParserInv s' := by
  unfold tallyParticleStep at h
  obtain ⟨ha, hb, hc⟩ := hi
  obtain ⟨ct, hct, h⟩ := exceptBind_ok h
  simp only [] at h
  split at h
  · obtain ⟨ps, hps, h⟩ := exceptBind_ok h
    cases h
    exact ⟨ha, fun hv => by simp at hv, fun hv => by simp at hv⟩
  · cases h

theorem tallyBinStep_inv (line : String) (s s' : ParserState)
    (h : tallyBinStep line s = .ok s') (hi : ParserInv s)
    (hlf : s.lfTally = some .TALLY_BIN) : ParserInv s' := by
  unfold tallyBinStep at h
  obtain ⟨ha, hb, hc⟩ := hi
  obtain ⟨ct, hct, h⟩ := exceptBind_ok h
  split at h
  · split at h
    · cases h
    · cases h
  · obtain ⟨bt, hbt, h⟩ := exceptBind_ok h
    simp only [] at h
    split at h
    · cases h
      exact ⟨ha, fun hv => by simp at hv, fun hv => by simp at hv⟩
    · split at h
      · cases h
        exact ⟨ha, fun hv => ⟨_, rfl, rfl⟩, fun hv => by simp at hv⟩
      · cases h
        exact ⟨ha, fun hv => by simp [hlf] at hv, fun hv => by simp [hlf] at hv⟩

theorem tallyBinDataStep_inv (line : String) (s s' : ParserState)
    (h : tallyBinDataStep line s = .ok s') (hi : ParserInv s)
    (hlf : s.lfTally = some .TALLY_BIN_DATA) : ParserInv s' := by
  unfold tallyBinDataStep at h
  obtain ⟨ha, hb, hc⟩ := hi
  obtain ⟨ct, hct, h⟩ := exceptBind_ok h
  obtain ⟨bdata, hbdata, h⟩ := exceptBind_ok h
  obtain ⟨expected, hexp, h⟩ := exceptBind_ok h
  obtain ⟨bkey, hbkey, h⟩ := exceptBind_ok h
  obtain ⟨bt, hbt, h⟩ := exceptBind_ok h
  obtain ⟨bq, hbq, h⟩ := exceptBind_ok h
  obtain ⟨bc, hbc, h⟩ := exceptBind_ok h
  simp only [] at h
  split at h
  · obtain ⟨vs, hvs, h⟩ := exceptBind_ok h
    obtain ⟨nd, hnd, h⟩ := exceptBind_ok h
    split at h
    · split at h
      · cases h
        exact ⟨ha, fun hv => ⟨_, rfl, rfl⟩, fun hv => by simp at hv⟩
      · cases h
        exact ⟨ha, fun hv => by simp at hv, fun hv => by simp at hv⟩
    · split at h
      · cases h
      · cases h
        exact ⟨ha, fun hv => by simp [hlf] at hv, fun hv => by simp [hlf] at hv⟩
  · obtain ⟨nd, hnd, h⟩ := exceptBind_ok h
    split at h
    · split at h
      · cases h
        exact ⟨ha, fun hv => ⟨_, rfl, rfl⟩, fun hv => by simp at hv⟩
      · cases h
        exact ⟨ha, fun hv => by simp at hv, fun hv => by simp at hv⟩
    · split at h
      · cases h
      · cases h
        exact ⟨ha, fun hv => by simp [hlf] at hv, fun hv => by simp [hlf] at hv⟩

theorem tallyValsStep_inv (line : String) (s s' : ParserState)
    (h : tallyValsStep line s = .ok s') (hi : ParserInv s)
    (hlf : s.lfTally = some .TALLY_VALS) : ParserInv s' := by
  unfold tallyValsStep at h
  obtain ⟨ha, hb, hc⟩ := hi
  obtain ⟨ct0, hct0, hexp0⟩ := hb hlf
  obtain ⟨ct, hct, h⟩ := exceptBind_ok h
  obtain ⟨expected, hexp, h⟩ := exceptBind_ok h
  rw [toExcept_ok_iff] at hct hexp
  rw [hct0] at hct
  cases hct
  rw [hexp0] at hexp
  cases hexp
  simp only [] at h
  split at h
  · cases h
    exact ⟨ha, hb, hc⟩
  · split at h
    · split at h
      · cases h
      · obtain ⟨prs, hprs, h⟩ := exceptBind_ok h
        obtain ⟨ct2, hct2, h⟩ := exceptBind_ok h
        cases hct2
        split at h
        · cases h
          refine ⟨ha, fun hv => by simp at hv, fun hv => ⟨_, rfl, ?_⟩⟩
          unfold TallyOk
          exact ((by assumption :
            ((ct0.vals_data ++ prs).length : Int) = ct0.total_vals)).symm
        · split at h
          · cases h
          · cases h
            exact ⟨ha, fun hv => ⟨_, rfl, hexp0⟩, fun hv => by simp [hlf] at hv⟩
    · obtain ⟨ct2, hct2, h⟩ := exceptBind_ok h
      cases hct2
      split at h
      · cases h
        refine ⟨ha, fun hv => by simp at hv, fun hv => ⟨ct0, rfl, ?_⟩⟩
        unfold TallyOk
        exact ((by assumption : ((ct0.vals_data).length : Int) = ct0.total_vals)).symm
      · split at h
        · cases h
        · cases h
          exact ⟨ha, fun hv => ⟨ct0, rfl, hexp0⟩, fun hv => by simp [hlf] at hv⟩

theorem tallyTfcStep_inv (line : String) (s s' : ParserState)
    (h : tallyTfcStep line s = .ok s') (hi : ParserInv s)
    (hlf : s.lfTally = some .TALLY_TFC) : ParserInv s' := by
  unfold tallyTfcStep at h
  obtain ⟨ha, hb, hc⟩ := hi
  obtain ⟨ct0, hct0, htok⟩ := hc hlf
  obtain ⟨ct, hct, h⟩ := exceptBind_ok h
  rw [toExcept_ok_iff] at hct
  rw [hct0] at hct
  cases hct
  simp only [] at h
  split at h
  · -- tfc header line
    split at h
    · obtain ⟨n, hn, h⟩ := exceptBind_ok h
      obtain ⟨coords, hcoords, h⟩ := exceptBind_ok h
      cases h
      exact ⟨ha, fun hv => by simp [hlf] at hv, fun hv => ⟨_, rfl, htok⟩⟩
    · cases h
  · split at h
    · -- numeric data row
      obtain ⟨ntfc, hntfc, h⟩ := exceptBind_ok h
      obtain ⟨itfc, hitfc, h⟩ := exceptBind_ok h
      split at h
      · split at h
        · obtain ⟨nps, hnps, h⟩ := exceptBind_ok h
          obtain ⟨mean, hmean, h⟩ := exceptBind_ok h
          obtain ⟨err, herr, h⟩ := exceptBind_ok h
          obtain ⟨fom, hfom, h⟩ := exceptBind_ok h
          obtain ⟨p2, hp2, h⟩ := exceptBind_ok h
          cases hp2
          split at h
          · obtain ⟨ov, hov, h⟩ := exceptBind_ok h
            cases h
            refine ⟨?_, fun hv => by simp at hv, fun hv => by simp at hv⟩
            intro kt hkt
            rw [toExcept_ok_iff] at hov
            simp only [stateTallies] at hkt
            rcases mem_dictSet ov.tallies _ _ kt hkt with h2 | h2
            · apply ha
              simp only [stateTallies, hov]
              exact h2
            · rw [h2]
              exact htok
          · cases h
            exact ⟨ha, fun hv => by simp [hlf] at hv, fun hv => ⟨_, rfl, htok⟩⟩
        · cases h
      · obtain ⟨p2, hp2, h⟩ := exceptBind_ok h
        cases hp2
        split at h
        · obtain ⟨ov, hov, h⟩ := exceptBind_ok h
          cases h
          refine ⟨?_, fun hv => by simp at hv, fun hv => by simp at hv⟩
          intro kt hkt
          rw [toExcept_ok_iff] at hov
          simp only [stateTallies] at hkt
          rcases mem_dictSet ov.tallies _ _ kt hkt with h2 | h2
          · apply ha
            simp only [stateTallies, hov]
            exact h2
          · rw [h2]
            exact htok
        · cases h
          exact ⟨ha, fun hv => by simp [hlf] at hv, fun hv => ⟨_, rfl, htok⟩⟩
    · cases h

theorem tallyStep_inv (table : McnpParticleTypes) (line : String) (s s' : ParserState)
    (h : tallyStep table line s = .ok s') (hi : ParserInv s) : ParserInv s' := by
  unfold tallyStep at h
  split at h
  · exact tallyHeadStep_inv table line s s' h hi (by assumption)
  · exact tallyParticleStep_inv table line s s' h hi
  · rename_i heq
    split at h
    · split at h
      · cases h
        obtain ⟨ha, hb, hc⟩ := hi
        refine ⟨ha, ?_, ?_⟩
        · intro hv
          rw [heq] at hv
          simp at hv
        · intro hv
          rw [heq] at hv
          simp at hv
      · cases h
    · obtain ⟨ha, hb, hc⟩ := hi
      exact tallyBinStep_inv line _ s' h
        ⟨ha, fun hv => by simp at hv, fun hv => by simp at hv⟩ rfl
  · exact tallyBinStep_inv line s s' h hi (by assumption)
  · exact tallyBinDataStep_inv line s s' h hi (by assumption)
  · exact tallyValsStep_inv line s s' h hi (by assumption)
  · exact tallyTfcStep_inv line s s' h hi (by assumption)
  · cases h
    exact hi

theorem parseStep_inv (table : McnpParticleTypes) (line : String) (s s' : ParserState)
    (h : parseStep table s line = .ok s') (hi : ParserInv s) : ParserInv s' := by
  unfold parseStep at h
  split at h
  · split at h
    · exact headHeaderStep_inv line s s' h hi
    · exact headTitleStep_inv line s s' h hi
    · exact headNtalStep_inv line s s' h hi
    · exact headTallyStep_inv line s s' h hi
    · cases h
      exact hi
  · split at h
    · exact tallyStep_inv table line s s' h hi
    · cases h
      exact hi

theorem initState_inv : ParserInv initState :=
  ⟨fun kt hkt => by simp [stateTallies, initState] at hkt,
   fun hv => by simp [initState] at hv,
   fun hv => by simp [initState] at hv⟩

theorem foldlM_parseStep_inv (table : McnpParticleTypes) (lines : List String) :
    ∀ s s' : ParserState, ParserInv s →
      lines.foldlM (fun st line => parseStep table st line) s = .ok s' →
      ParserInv s' := by
  induction lines with
  | nil =>
    intro s s' hi h
    cases h
    exact hi
  | cons l ls ih =>
    intro s s' hi h
    rw [List.foldlM_cons] at h
    obtain ⟨s1, h1, h⟩ := exceptBind_ok h
    exact ih s1 s' (parseStep_inv table l s s1 h1 hi) h

/-- C2: for every tally in the tallies mapping of the Overview returned by
`parse_lines`, `total_vals()` — the product over the eight stored axes of
`max(declared size, 1)` — equals the length of the tally's flattened
`(value, uncertainty)` list `vals_data`. -/
theorem C2_total_vals_eq_vals_length (table : McnpParticleTypes) (lines : List String)
    (ov : MctalOverview) (h : parse_lines table lines = .ok ov) :
    ∀ kt ∈ ov.tallies, kt.2.total_vals = (kt.2.vals_data.length : Int) := by
  unfold parse_lines at h
  obtain ⟨s, hs, h⟩ := exceptBind_ok h
  rw [toExcept_ok_iff] at h
  have hinv := foldlM_parseStep_inv table lines initState s initState_inv hs
  intro kt hkt
  exact hinv.1 kt (by simp only [stateTallies, h]; exact hkt)

/-- The tally record produced by parsing `scenarioALines` (tally number 1). -/
def scenarioATally : MctalTally :=
  { tally_num := 1,
    particles := [{ ipt := 1 }],
    detector_type := DetectorType.NONE,
    modifier_type := TallyModifierType.NONE,
    bin := [("F", McnpTallyBinEnum.F, 2, "",
              [{ mantissa := 1, exp10 := 0 }, { mantissa := 2, exp10 := 0 }]),
            ("D", McnpTallyBinEnum.D, 1, "", []),
            ("U", McnpTallyBinEnum.U, 1, "", []),
            ("S", McnpTallyBinEnum.S, 1, "", []),
            ("M", McnpTallyBinEnum.M, 1, "", []),
            ("C", McnpTallyBinEnum.C, 1, "", [{ mantissa := 5, exp10 := -1 }]),
            ("E", McnpTallyBinEnum.E, 3, "",
              [{ mantissa := 10, exp10 := -1 },
               { mantissa := 20, exp10 := -1 },
               { mantissa := 30, exp10 := -1 }]),
            ("T", McnpTallyBinEnum.T, 1, "", [{ mantissa := 100, exp10 := -1 }])],
    fc_data := [],
    vals_data := [({ mantissa := 10, exp10 := -1 }, { mantissa := 1, exp10 := -1 }),
                  ({ mantissa := 20, exp10 := -1 }, { mantissa := 2, exp10 := -1 }),
                  ({ mantissa := 30, exp10 := -1 }, { mantissa := 3, exp10 := -1 }),
                  ({ mantissa := 40, exp10 := -1 }, { mantissa := 4, exp10 := -1 }),
                  ({ mantissa := 50, exp10 := -1 }, { mantissa := 5, exp10 := -1 }),
                  ({ mantissa := 60, exp10 := -1 }, { mantissa := 6, exp10 := -1 })],
    tfc_data := [(10,
                  { mantissa := 10, exp10 := -1 },
                  { mantissa := 5, exp10 := -1 },
                  { mantissa := 20, exp10 := -1 })],
    tfc_bin := [0, 0, 0, 0, 0, 0, 0, 0] }

/-- The overview produced by parsing `scenarioALines`. -/
def scenarioAOverview : MctalOverview :=
  { caseStr := "",
    code_name := "mcnp6",
    version := "6",
    probid := "12/18/25 12:51:58",
    knod := 7,
    nps := 100,
    rnr := 42,
    title := "scenario a",
    tally_nums := [1],
    tallies := [(1, scenarioATally)] }

/-- Witness for C2 on the fully parsed scenario-A input. -/
theorem C2_total_vals_eq_vals_length_witness :
    parse_lines mcnpParticleTable scenarioALines = .ok scenarioAOverview ∧
    scenarioATally.total_vals = (scenarioATally.vals_data.length : Int) :=
  ⟨by decide, C2_total_vals_eq_vals_length mcnpParticleTable scenarioALines
      scenarioAOverview (by decide) (1, scenarioATally) (by decide)⟩

/-- Scenario-B input: the energy axis is declared `et       5` — qualifier
`t`, size 5 — and is followed by exactly 4 payload numbers; `total_vals()`
is then 2*5 = 10. -/
def scenarioBLines : List String :=
  ["mcnp6 6 12/18/25 12:51:58 7 100 42",
   " scenario b",
   "ntal 1",
   "1",
   "tally 1 1 0 0",
   "f        2",
   "1 2",
   "d        1",
   "u        1",
   "s        1",
   "m        1",
   "c        1",
   "0.5",
   "et       5",
   "1.0 2.0 3.0 4.0",
   "t        1",
   "10.0",
   "vals",
   "1 0 2 0 3 0 4 0 5 0 6 0 7 0 8 0 9 0 10 0",
   "tfc 1 1 1 1 1 1 1 1 1",
   "10 1.0 0.5 2.0"]

/-- Scenario B with one payload number too many (5 instead of 4) on the
`et` axis. -/
def scenarioBExtraLines : List String :=
  ["mcnp6 6 12/18/25 12:51:58 7 100 42",
   " scenario b",
   "ntal 1",
   "1",
   "tally 1 1 0 0",
   "f        2",
   "1 2",
   "d        1",
   "u        1",
   "s        1",
   "m        1",
   "c        1",
   "0.5",
   "et       5",
   "1.0 2.0 3.0 4.0 5.0"]

/-- Writing a key reads back the written value. -/
theorem dictGet_dictSet_self {κ α : Type} [DecidableEq κ] (d : List (κ × α)) (k : κ) (v : α) :
    dictGet (dictSet d k v) k = some v := by
  induction d with
  | nil => simp [dictSet, dictGet]
  | cons kv rest ih =>
    by_cases hk : kv.1 = k
    · simp [dictSet, hk, dictGet]
    · simp [dictSet, hk, dictGet, ih]

set_option synthInstance.maxSize 1000

/-- C8: for a payload-bearing axis (kind F, C, E or T, the kinds with
`has_mctal_data`) declared with nonzero size `n`, the TALLY_BIN state sets the
expected payload count to `n - 1` when the declaration's qualifier is `t` and
to `n` otherwise, moving to TALLY_BIN_DATA; the BIN_DATA state stores the axis
exactly when the accumulated payload reaches `expected` and raises
`Too many bin data values in MCTAL tally` when it exceeds it; end to end, an
axis `et       5` (qualifier `t`, size 5) reads exactly 4 payload numbers,
and a 5th payload number makes the parse fail. -/
theorem C8_payload_count_qualifier_t :
    (∀ (line : String) (c1 c2 : Char) (n : Nat) (s : ParserState) (ct : MctalTally)
      (bt : McnpTallyBinEnum),
      binLineMatch line = some (c1, c2, n) →
      s.current_tally = some ct →
      McnpTallyBinEnum.fromName (String.mk [c1.toUpper]) = some bt →
      (n : Int) ≠ 0 → bt.has_mctal_data = true →
      ∃ s', tallyBinStep line s = .ok s' ∧
        s'.expected = some (if (if pyIsSpace c2 then "" else String.mk [c2]) = "t"
          then (n : Int) - 1 else (n : Int)) ∧
        s'.lfTally = some .TALLY_BIN_DATA ∧ s'.bin_data = some []) ∧
    (∀ (line : String) (s : ParserState) (ct : MctalTally) (d : List PyFloat) (e c : Int)
      (k : String) (bt : McnpTallyBinEnum) (q : String) (vs : List PyFloat),
      s.current_tally = some ct → s.bin_data = some d → s.expected = some e →
      s.bin_key = some k → s.bin_type = some bt → s.bin_qual = some q →
      s.bin_count = some c →
      (pySplit (pyStrip line)).mapM
        (fun p => toExcept (parseBinDatum p) "ValueError: invalid literal") = .ok vs →
      (d.length : Int) < e →
      ((((d ++ vs).length : Int) = e →
        ∃ s' ct2, tallyBinDataStep line s = .ok s' ∧ s'.current_tally = some ct2 ∧
          dictGet ct2.bin k = some (bt, c, q, d ++ vs)) ∧
       (((d ++ vs).length : Int) > e →
        tallyBinDataStep line s = .error "Too many bin data values in MCTAL tally"))) ∧
    ((parse_lines mcnpParticleTable scenarioBLines).map (fun ov =>
        (dictGet ov.tallies 1).map (fun t =>
          ((dictGet t.bin "E").map (fun b => (b.1, b.2.1, b.2.2.1, (b.2.2.2.length : Int))),
           t.total_vals, (t.vals_data.length : Int)))) =
      .ok (some (some (.E, 5, "t", 4), 10, 10)) ∧
     parse_lines mcnpParticleTable scenarioBExtraLines =
      .error "Too many bin data values in MCTAL tally") := by
  refine ⟨?_, ?_, by decide⟩
  · intro line c1 c2 n s ct bt hm hct hbt hn hd
    unfold tallyBinStep
    rw [hct, hm]
    simp only [toExcept, Bind.bind, Except.bind]
    rw [hbt]
    simp only [toExcept, Bind.bind, Except.bind]
    rw [if_pos ⟨hn, hd⟩]
    exact ⟨_, rfl, rfl, rfl, rfl⟩
  · intro line s ct d e c k bt q vs hct hbd hexp hbk hbt hbq hbc hvs hlt
    constructor
    · intro he
      unfold tallyBinDataStep
      rw [hct, hbd, hexp, hbk, hbt, hbq, hbc, hvs]
      simp only [toExcept, Bind.bind, Except.bind]
      rw [if_pos hlt]
      rw [if_pos he]
      by_cases hT : bt = McnpTallyBinEnum.T
      · rw [if_pos hT]
        exact ⟨_, _, rfl, rfl, dictGet_dictSet_self ct.bin k _⟩
      · rw [if_neg hT]
        exact ⟨_, _, rfl, rfl, dictGet_dictSet_self ct.bin k _⟩
    · intro hgt
      unfold tallyBinDataStep
      rw [hct, hbd, hexp, hbk, hbt, hbq, hbc, hvs]
      simp only [toExcept, Bind.bind, Except.bind]
      rw [if_pos hlt]
      rw [if_neg (by omega : ¬(((d ++ vs).length : Int) = e)), if_pos hgt]

/-- Witness for C8: the axis line `et       5` sets `expected = 4` and a
fifth payload number raises the overrun error. -/
theorem C8_payload_count_qualifier_t_witness :
    binLineMatch "et       5" = some ('e', 't', 5) ∧
    (∃ s', tallyBinStep "et       5"
        ({ current_tally := some {} } : ParserState) = .ok s' ∧
      s'.expected = some (if (if pyIsSpace 't' then "" else String.mk ['t']) = "t"
        then ((5 : Nat) : Int) - 1 else ((5 : Nat) : Int)) ∧
      s'.lfTally = some .TALLY_BIN_DATA ∧ s'.bin_data = some []) ∧
    tallyBinDataStep "1.0 2.0 3.0 4.0 5.0"
      ({ current_tally := some {}, bin_data := some [], expected := some 4,
         bin_key := some "E", bin_type := some .E, bin_qual := some "t",
         bin_count := some 5 } : ParserState) =
      .error "Too many bin data values in MCTAL tally" :=
  ⟨by decide,
   C8_payload_count_qualifier_t.1 "et       5" 'e' 't' 5
     ({ current_tally := some {} } : ParserState) {} .E
     (by decide) rfl (by decide) (by decide) (by decide),
   (C8_payload_count_qualifier_t.2.1 "1.0 2.0 3.0 4.0 5.0"
     ({ current_tally := some {}, bin_data := some [], expected := some 4,
        bin_key := some "E", bin_type := some .E, bin_qual := some "t",
        bin_count := some 5 } : ParserState) {} [] 4 5 "E" .E "t"
     [{ mantissa := 10, exp10 := -1 }, { mantissa := 20, exp10 := -1 },
      { mantissa := 30, exp10 := -1 }, { mantissa := 40, exp10 := -1 },
      { mantissa := 50, exp10 := -1 }]
     rfl rfl rfl rfl rfl rfl rfl (by decide) (by decide)).2 (by decide)⟩

/-- A positive declared size is its own normalized size. -/
theorem normSize_of_pos (c : Int) (h : 1 ≤ c) : normSize c = c := by
  unfold normSize
  rw [if_neg (by omega)]

/-- C3: the two independently coded offset computations agree.  For eight
normalized axis sizes (each at least 1) and any in-bounds eight-axis
coordinate, the flat index that `MctalTally.value`'s accumulation loop
computes into `vals_data` equals the sum over the axes of index times the
stride computed by `MultiDimIterator._compute_strides` for those sizes (the
loop's second component being the full size product). -/
theorem C3_value_flat_index_eq_strides_sum
    (c0 c1 c2 c3 c4 c5 c6 c7 i0 i1 i2 i3 i4 i5 i6 i7 : Int)
    (vals : List (PyFloat × PyFloat))
    (hc0 : 1 ≤ c0) (hc1 : 1 ≤ c1) (hc2 : 1 ≤ c2) (hc3 : 1 ≤ c3)
    (hc4 : 1 ≤ c4) (hc5 : 1 ≤ c5) (hc6 : 1 ≤ c6) (hc7 : 1 ≤ c7)
    (hb0 : 0 ≤ i0 ∧ i0 < c0) (hb1 : 0 ≤ i1 ∧ i1 < c1)
    (hb2 : 0 ≤ i2 ∧ i2 < c2) (hb3 : 0 ≤ i3 ∧ i3 < c3)
    (hb4 : 0 ≤ i4 ∧ i4 < c4) (hb5 : 0 ≤ i5 ∧ i5 < c5)
    (hb6 : 0 ≤ i6 ∧ i6 < c6) (hb7 : 0 ≤ i7 ∧ i7 < c7) :
    valueLoop (canonicalTally [c0, c1, c2, c3, c4, c5, c6, c7] vals).bin
        [i0, i1, i2, i3, i4, i5, i6, i7] =
      .ok (i0 * (dictGet (computeStrides (List.zip mdiParams
              [c0, c1, c2, c3, c4, c5, c6, c7])) "F").getD 0 +
           i1 * (dictGet (computeStrides (List.zip mdiParams
              [c0, c1, c2, c3, c4, c5, c6, c7])) "D").getD 0 +
           i2 * (dictGet (computeStrides (List.zip mdiParams
              [c0, c1, c2, c3, c4, c5, c6, c7])) "U").getD 0 +
           i3 * (dictGet (computeStrides (List.zip mdiParams
              [c0, c1, c2, c3, c4, c5, c6, c7])) "S").getD 0 +
           i4 * (dictGet (computeStrides (List.zip mdiParams
              [c0, c1, c2, c3, c4, c5, c6, c7])) "M").getD 0 +
           i5 * (dictGet (computeStrides (List.zip mdiParams
              [c0, c1, c2, c3, c4, c5, c6, c7])) "C").getD 0 +
           i6 * (dictGet (computeStrides (List.zip mdiParams
              [c0, c1, c2, c3, c4, c5, c6, c7])) "E").getD 0 +
           i7 * (dictGet (computeStrides (List.zip mdiParams
              [c0, c1, c2, c3, c4, c5, c6, c7])) "T").getD 0,
           c0 * c1 * c2 * c3 * c4 * c5 * c6 * c7) := by
  have hnorm : (canonicalTally [c0, c1, c2, c3, c4, c5, c6, c7] vals).bin.map
      (fun b => normSize b.2.2.1) = [c0, c1, c2, c3, c4, c5, c6, c7] := by
    rw [canonicalTally_norm [c0, c1, c2, c3, c4, c5, c6, c7] vals rfl]
    simp only [List.map]
    rw [normSize_of_pos c0 hc0, normSize_of_pos c1 hc1, normSize_of_pos c2 hc2,
        normSize_of_pos c3 hc3, normSize_of_pos c4 hc4, normSize_of_pos c5 hc5,
        normSize_of_pos c6 hc6, normSize_of_pos c7 hc7]
  have hF : (dictGet (computeStrides (List.zip mdiParams
      [c0, c1, c2, c3, c4, c5, c6, c7])) "F").getD 0 =
      1 * c7 * c6 * c5 * c4 * c3 * c2 * c1 := rfl
  have hD : (dictGet (computeStrides (List.zip mdiParams
      [c0, c1, c2, c3, c4, c5, c6, c7])) "D").getD 0 =
      1 * c7 * c6 * c5 * c4 * c3 * c2 := rfl
  have hU : (dictGet (computeStrides (List.zip mdiParams
      [c0, c1, c2, c3, c4, c5, c6, c7])) "U").getD 0 =
      1 * c7 * c6 * c5 * c4 * c3 := rfl
  have hS : (dictGet (computeStrides (List.zip mdiParams
      [c0, c1, c2, c3, c4, c5, c6, c7])) "S").getD 0 =
      1 * c7 * c6 * c5 * c4 := rfl
  have hM : (dictGet (computeStrides (List.zip mdiParams
      [c0, c1, c2, c3, c4, c5, c6, c7])) "M").getD 0 =
      1 * c7 * c6 * c5 := rfl
  have hC : (dictGet (computeStrides (List.zip mdiParams
      [c0, c1, c2, c3, c4, c5, c6, c7])) "C").getD 0 =
      1 * c7 * c6 := rfl
  have hE : (dictGet (computeStrides (List.zip mdiParams
      [c0, c1, c2, c3, c4, c5, c6, c7])) "E").getD 0 = 1 * c7 := rfl
  have hT : (dictGet (computeStrides (List.zip mdiParams
      [c0, c1, c2, c3, c4, c5, c6, c7])) "T").getD 0 = 1 := rfl
  rw [valueLoop_ok _ _
    (by rw [canonicalTally_bin_length [c0, c1, c2, c3, c4, c5, c6, c7] vals rfl]; rfl) ?hb]
  case hb =>
    rw [hnorm]
    intro p hp
    simp only [List.zip_cons_cons, List.zip_nil_right, List.mem_cons,
      List.not_mem_nil, or_false] at hp
    rcases hp with rfl | rfl | rfl | rfl | rfl | rfl | rfl | rfl
    exacts [hb0, hb1, hb2, hb3, hb4, hb5, hb6, hb7]
  rw [hnorm, hF, hD, hU, hS, hM, hC, hE, hT]
  refine congrArg Except.ok ?_
  simp only [List.zip_cons_cons, List.zip_nil_right, specRowMajorAcc, List.foldr,
    Prod.mk.injEq]
  constructor <;> ring

/-- Witness for C3 at sizes (2,1,1,1,1,1,3,1) and coordinate
(1,0,0,0,0,0,2,0). -/
theorem C3_value_flat_index_eq_strides_sum_witness :
    valueLoop (canonicalTally [2, 1, 1, 1, 1, 1, 3, 1] sampleVals).bin
        [1, 0, 0, 0, 0, 0, 2, 0] =
      .ok (1 * (dictGet (computeStrides (List.zip mdiParams
              ([2, 1, 1, 1, 1, 1, 3, 1] : List Int))) "F").getD 0 +
           0 * (dictGet (computeStrides (List.zip mdiParams
              ([2, 1, 1, 1, 1, 1, 3, 1] : List Int))) "D").getD 0 +
           0 * (dictGet (computeStrides (List.zip mdiParams
              ([2, 1, 1, 1, 1, 1, 3, 1] : List Int))) "U").getD 0 +
           0 * (dictGet (computeStrides (List.zip mdiParams
              ([2, 1, 1, 1, 1, 1, 3, 1] : List Int))) "S").getD 0 +
           0 * (dictGet (computeStrides (List.zip mdiParams
              ([2, 1, 1, 1, 1, 1, 3, 1] : List Int))) "M").getD 0 +
           0 * (dictGet (computeStrides (List.zip mdiParams
              ([2, 1, 1, 1, 1, 1, 3, 1] : List Int))) "C").getD 0 +
           2 * (dictGet (computeStrides (List.zip mdiParams
              ([2, 1, 1, 1, 1, 1, 3, 1] : List Int))) "E").getD 0 +
           0 * (dictGet (computeStrides (List.zip mdiParams
              ([2, 1, 1, 1, 1, 1, 3, 1] : List Int))) "T").getD 0,
           2 * 1 * 1 * 1 * 1 * 1 * 3 * 1) :=
  C3_value_flat_index_eq_strides_sum 2 1 1 1 1 1 3 1 1 0 0 0 0 0 2 0 sampleVals
    (by decide) (by decide) (by decide) (by decide) (by decide) (by decide)
    (by decide) (by decide) (by decide) (by decide) (by decide) (by decide)
    (by decide) (by decide) (by decide) (by decide)
